import Mathlib

/-!
Verification development for the chatgpt-exporter browser extension.

The JavaScript sources are shallowly embedded:
* dynamic JSON-ish values are modelled by the inductive `JVal`
  (JS numbers are modelled as integers, and object identity is
  approximated by structural equality);
* browser/environment services (`Date.parse`, `Date.now()`,
  `String.prototype.normalize`, local-timezone date components,
  the network, the DOM) are threaded explicitly as parameters;
* `async` functions are modelled as pure functions over those
  parameters, with thrown exceptions modelled by `Except`.
-/

set_option maxHeartbeats 1000000
set_option maxRecDepth 100000

namespace CgptExporter

/-- A JavaScript value as it can appear in a raw API payload. -/
inductive JVal where
  | undef
  | null
  | bool (b : Bool)
  | num (n : Int)
  | str (s : String)
  | arr (xs : List JVal)
  | obj (fields : List (String × JVal))

mutual

/-- Structural equality on `JVal` (models SameValueZero on the values
the sources actually compare: strings, numbers, null/undefined). -/
def JVal.beq : JVal → JVal → Bool
  | .undef, .undef => true
  | .null, .null => true
  | .bool a, .bool b => a == b
  | .num a, .num b => a == b
  | .str a, .str b => a == b
  | .arr a, .arr b => JVal.beqList a b
  | .obj a, .obj b => JVal.beqFields a b
  | _, _ => false

def JVal.beqList : List JVal → List JVal → Bool
  | [], [] => true
  | a :: as, b :: bs => JVal.beq a b && JVal.beqList as bs
  | _, _ => false

def JVal.beqFields : List (String × JVal) → List (String × JVal) → Bool
  | [], [] => true
  | (k, a) :: as, (l, b) :: bs => k == l && JVal.beq a b && JVal.beqFields as bs
  | _, _ => false

end

instance : BEq JVal := ⟨JVal.beq⟩

mutual

theorem JVal.beq_iff : ∀ a b : JVal, JVal.beq a b = true ↔ a = b
  | .undef, b => by cases b <;> simp [JVal.beq]
  | .null, b => by cases b <;> simp [JVal.beq]
  | .bool a, b => by cases b <;> simp [JVal.beq]
  | .num a, b => by cases b <;> simp [JVal.beq]
  | .str a, b => by cases b <;> simp [JVal.beq]
  | .arr a, b => by
      cases b <;> simp [JVal.beq]
      exact JVal.beqList_iff a _
  | .obj a, b => by
      cases b <;> simp [JVal.beq]
      exact JVal.beqFields_iff a _

theorem JVal.beqList_iff : ∀ a b : List JVal, JVal.beqList a b = true ↔ a = b
  | [], b => by cases b <;> simp [JVal.beqList]
  | a :: as, b => by
      cases b with
      | nil => simp [JVal.beqList]
      | cons b bs =>
        simp [JVal.beqList, JVal.beq_iff a b, JVal.beqList_iff as bs]

theorem JVal.beqFields_iff :
    ∀ a b : List (String × JVal), JVal.beqFields a b = true ↔ a = b
  | [], b => by cases b <;> simp [JVal.beqFields]
  | (k, a) :: as, b => by
      cases b with
      | nil => simp [JVal.beqFields]
      | cons kb bs =>
        cases kb with
        | mk l b =>
          simp [JVal.beqFields, JVal.beq_iff a b, JVal.beqFields_iff as bs,
            and_assoc]

end

instance : DecidableEq JVal := fun a b =>
  decidable_of_iff (JVal.beq a b = true) (JVal.beq_iff a b)

instance : LawfulBEq JVal where
  eq_of_beq h := (JVal.beq_iff _ _).mp h
  rfl := (JVal.beq_iff _ _).mpr rfl

/-- JS truthiness: `undefined`, `null`, `false`, `0`, `""` are falsy
(`NaN` is not representable in this model); everything else is truthy. -/
def truthy : JVal → Bool
  | .undef => false
  | .null => false
  | .bool b => b
  | .num n => n != 0
  | .str s => s ≠ ""
  | .arr _ => true
  | .obj _ => true

/-- JS `a || b`. -/
def jsOr (a b : JVal) : JVal := if truthy a then a else b

/-- JS `a ?? b`. -/
def jsCoalesce (a b : JVal) : JVal :=
  match a with
  | .undef => b
  | .null => b
  | v => v

/-- Property access `v.f` / `v?.f`; yields `undefined` on primitives and
missing keys (every access in the sources is either optional-chained or
guarded, so the throwing cases of real JS are never reached). -/
def getF (v : JVal) (f : String) : JVal :=
  match v with
  | .obj fields =>
    match fields.lookup f with
    | some x => x
    | none => .undef
  | _ => JVal.undef

/-- JS `String(v)` / `toString` coercion. -/
def jsToString : JVal → String
  | .undef => "undefined"
  | .null => "null"
  | .bool b => if b then "true" else "false"
  | .num n => toString n
  | .str s => s
  | .arr xs => String.intercalate "," (xs.map jsArrElemString)
  | .obj _ => "[object Object]"
where
  /-- `Array.prototype.toString` maps `null`/`undefined` elements to `""`
  (nested arrays/objects are coerced shallowly here; the sources never
  stringify nested arrays). -/
  jsArrElemString : JVal → String
  | .undef => ""
  | .null => ""
  | .bool b => if b then "true" else "false"
  | .num n => toString n
  | .str s => s
  | .arr _ => ""
  | .obj _ => "[object Object]"

/-- `Object.values` (for arrays, the elements). -/
def objValues : JVal → List JVal
  | .obj fields => fields.map Prod.snd
  | .arr xs => xs
  | _ => []

/-- `Object.keys` (for arrays, the stringified indices). -/
def objKeys : JVal → List String
  | .obj fields => fields.map Prod.fst
  | .arr xs => (List.range xs.length).map toString
  | _ => []

/-- `Set<string>.has(v)`: SameValueZero, no coercion, so a non-string
never matches a set of strings. -/
def strSetHas (keys : List String) : JVal → Bool
  | .str s => keys.contains s
  | _ => false

/-- Indexing `mapping[k]` coerces the key to a string. -/
def jsIndex (v : JVal) (key : JVal) : JVal :=
  match v with
  | .obj fields =>
    match fields.lookup (jsToString key) with
    | some x => x
    | none => .undef
  | .arr xs =>
    match (jsToString key).toNat? with
    | some i => (xs.getD i .undef)
    | none => .undef
  | _ => JVal.undef

/-- `Array.isArray(v) ? v : []` as a list. -/
def asArray : JVal → List JVal
  | .arr xs => xs
  | _ => []

/-- `trimString` from schema.js: trim strings, map everything else to `""`. -/
def trimString : JVal → String
  | .str s => s.trim
  | _ => ""

/-- The browser environment threaded through the embedding. -/
structure JsEnv where
  /-- `Date.now()` in milliseconds. -/
  nowMs : Int
  /-- `Date.parse`, milliseconds since epoch, `none` for `NaN`. -/
  dateParse : String → Option Int
  /-- `String.prototype.normalize("NFD")`. -/
  nfd : String → String
  /-- local-timezone `(getFullYear, getMonth, getDate)` of a ms timestamp. -/
  localYMD : Int → Int × Nat × Nat
  /-- `new Date().toLocaleDateString()`. -/
  localeDateString : String
  /-- `new Date().toISOString()`. -/
  isoNowString : String

/-! ### schema.js — the canonical conversation model and the normalizer -/

/-- One unit of normalized message content (tagged union from schema.js).
`unknown` stands for any value whose `type` discriminant is none of the
three kinds; the normalizer never produces it, but renderers must treat
it via their default arms. -/
inductive ContentPart where
  | text (text : String)
  | code (language text : String)
  | image (assetId : String) (width height : JVal) (mimeType : String)
  | unknown
deriving DecidableEq

/-- NormalizedMessage from schema.js. -/
structure NormalizedMessage where
  id : String
  role : String
  createTime : Option Int
  parts : List ContentPart
deriving DecidableEq

/-- NormalizedConversation from schema.js. -/
structure NormalizedConversation where
  id : String
  title : String
  createTime : Option Int
  updateTime : Option Int
  model : Option String
  customGptName : Option String
  messages : List NormalizedMessage
deriving DecidableEq

/-- `toUnixSeconds` from schema.js.  Numbers are modelled as integers, so
`Math.floor` is the identity; `Date.parse` is the environment's parser
(ms), floor-divided by 1000. -/
def toUnixSeconds (env : JsEnv) : JVal → Option Int
  | .undef => none
  | .null => none
  | .num n => some n
  | .str s =>
    match env.dateParse s with
    | some ms => some (Int.fdiv ms 1000)
    | none => none
  | _ => none

/-- `makeEmpty` from schema.js. -/
def makeEmpty (id : String) : NormalizedConversation :=
  { id := id, title := "Untitled Chat", createTime := none, updateTime := none,
    model := none, customGptName := none, messages := [] }

/-- `isValidMessage` from schema.js (`m && Array.isArray(m.parts) &&
m.parts.length > 0`; messages are typed here, so only the length test
remains). -/
def isValidMessage (m : NormalizedMessage) : Bool :=
  m.parts.length > 0

/-- `detectModel` from schema.js. -/
def detectModel (raw : JVal) : Option String :=
  if truthy (getF raw "default_model_slug") then
    some (jsToString (getF raw "default_model_slug"))
  else
    let mapping := jsCoalesce (getF raw "mapping") (.obj [])
    let nodes := objValues mapping
    detectModelScan nodes.reverse
where
  /-- the reverse `for` loop looking for the first truthy
  `message.metadata.model_slug`. -/
  detectModelScan : List JVal → Option String
  | [] => none
  | n :: rest =>
    let meta := getF (getF n "message") "metadata"
    if truthy (getF meta "model_slug") then
      some (jsToString (getF meta "model_slug"))
    else detectModelScan rest

/-- The `parts.map(p => typeof p === "string" ? p : p?.text || "")`
mapper from the `"text"` arm of `extractContentParts`. -/
def textSubPart (p : JVal) : JVal :=
  match p with
  | .str s => .str s
  | v => jsOr (getF v "text") (.str "")

/-- `Array.prototype.join("")`: each element is coerced with `toString`,
`null`/`undefined` to `""`. -/
def jsJoinEmpty (xs : List JVal) : String :=
  (xs.map fun v =>
    match v with
    | .undef => ""
    | .null => ""
    | v => jsToString v).foldr (· ++ ·) ""

/-- One step of the `multimodal_text` sub-part loop. -/
def multimodalPart (p : JVal) : List ContentPart :=
  match p with
  | .str s => if s.trim ≠ "" then [.text s] else []
  | v =>
    if getF v "content_type" = .str "image_asset_pointer" then
      [.image (jsToString (jsOr (getF v "asset_pointer") (.str "")))
        (jsCoalesce (getF v "width") .null)
        (jsCoalesce (getF v "height") .null)
        "image/png"]
    else []

/-- `extractContentParts` from schema.js. -/
def extractContentParts (content : JVal) : List ContentPart :=
  if ¬ truthy content then []
  else
    match content with
    | .str s => if s.trim ≠ "" then [.text s] else []
    | .obj _ =>
      extractContentPartsObj content
    | .arr _ =>
      -- arrays have `typeof === "object"` and no `content_type` field
      extractContentPartsObj content
    | _ => []
where
  /-- the `content_type` dispatch. -/
  extractContentPartsObj (content : JVal) : List ContentPart :=
    let ct := getF content "content_type"
    if ct = .str "text" then
      let parts := asArray (getF content "parts")
      let text := (jsJoinEmpty (parts.map textSubPart)).trim
      if text ≠ "" then [.text text] else []
    else if ct = .str "code" then
      let language := (jsToString (jsOr (getF content "language") (.str ""))).trim
      let text := (jsToString (jsOr (getF content "text") (.str ""))).trim
      if text ≠ "" then [.code language text] else []
    else if ct = .str "tether_browsing_display" ∨ ct = .str "tether_quote" then
      []
    else if ct = .str "multimodal_text" then
      (asArray (getF content "parts")).flatMap multimodalPart
    else []

/-- `extractMessage` from schema.js. -/
def extractMessage (env : JsEnv) (node : JVal) : Option NormalizedMessage :=
  let m := getF node "message"
  if ¬ truthy m then none
  else
    let role := jsToString (jsOr (getF (getF m "author") "role") (.str "unknown"))
    if role = "system" then none
    else
      let createTime := toUnixSeconds env (getF m "create_time")
      let parts := extractContentParts (getF m "content")
      if parts.length = 0 then none
      else some
        { id := jsToString (jsOr (getF m "id") (jsOr (getF node "id") (.str ""))),
          role := role,
          createTime := createTime,
          parts := parts }

/-- The root test from `extractMessages`:
`!n?.parent || !idSet.has(n.parent)`. -/
def isRootNode (keys : List String) (n : JVal) : Bool :=
  ¬ truthy (getF n "parent") || ¬ strSetHas keys (getF n "parent")

/-- State of the depth-first walk in `extractMessages`: the output list
and the visited set (of node `id` values). -/
structure WalkState where
  ordered : List NormalizedMessage
  visited : List JVal
deriving DecidableEq

/-- The recursive `walk` from `extractMessages`.  The fuel only bounds the
recursion for Lean; it is never exhausted, because every recursive step
adds a fresh node id to the visited set and ids come from the values of
the finite mapping. -/
def walk (env : JsEnv) (mapping : JVal) : Nat → JVal → WalkState → WalkState
  | 0, _, st => st
  | fuel + 1, node, st =>
    if ¬ truthy node ∨ st.visited.contains (getF node "id") then st
    else
      let st1 : WalkState := { st with visited := st.visited ++ [getF node "id"] }
      let st2 : WalkState :=
        match extractMessage env node with
        | some msg => { st1 with ordered := st1.ordered ++ [msg] }
        | none => st1
      let children := asArray (getF node "children")
      -- `children[children.length - 1]`: only the last child (latest branch)
      let lastChild := children.getLastD .undef
      if truthy lastChild ∧ truthy (jsIndex mapping lastChild) then
        walk env mapping fuel (jsIndex mapping lastChild) st2
      else st2

/-- The complete traversal state of `extractMessages`: the fold of
`walk` over the roots, starting from the empty output and visited set. -/
def extractTraversal (env : JsEnv) (mapping : JVal) : WalkState :=
  let nodes := objValues mapping
  let keys := objKeys mapping
  let roots := nodes.filter (isRootNode keys)
  roots.foldl (fun st root => walk env mapping (nodes.length + 1) root st)
    ⟨[], []⟩

/-- `extractMessages` from schema.js. -/
def extractMessages (env : JsEnv) (mapping : JVal) : List NormalizedMessage :=
  match mapping with
  | .obj _ =>
    (extractTraversal env mapping).ordered
  | .arr _ =>
    -- arrays pass the `typeof === "object"` guard too
    (extractTraversal env mapping).ordered
  | _ => []

/-- `normalizeConversation` from schema.js. -/
def normalizeConversation (env : JsEnv) (raw : JVal) : NormalizedConversation :=
  match raw with
  | .obj _ => normalizeConversationObj env raw
  | .arr _ => normalizeConversationObj env raw
  | _ => makeEmpty ""
where
  normalizeConversationObj (env : JsEnv) (raw : JVal) : NormalizedConversation :=
    let id := (jsToString (jsOr (getF raw "id")
      (jsOr (getF raw "conversation_id") (.str "")))).trim
    let title := if trimString (getF raw "title") ≠ "" then
        trimString (getF raw "title") else "Untitled Chat"
    let model := detectModel raw
    let createTime := toUnixSeconds env (getF raw "create_time")
    let updateTime := toUnixSeconds env (getF raw "update_time")
    let customGptName :=
      if truthy (getF raw "gizmo_id") then
        some (jsToString (jsCoalesce
          (getF (getF (getF (getF raw "meta") "gizmo") "display") "name")
          (getF raw "gizmo_id")))
      else none
    let messages := extractMessages env (jsCoalesce (getF raw "mapping") (.obj []))
    { id, title, createTime, updateTime, model, customGptName, messages }

/-- `validateConversation` from schema.js: fallback defaults plus the
`isValidMessage` filter. -/
def validateConversation (env : JsEnv) (conv : NormalizedConversation) :
    NormalizedConversation :=
  { id := if conv.id ≠ "" then conv.id else "unknown_" ++ toString env.nowMs,
    title := if conv.title ≠ "" then conv.title else "Untitled Chat",
    createTime := conv.createTime,
    updateTime := conv.updateTime,
    model := conv.model,
    customGptName := conv.customGptName,
    messages := conv.messages.filter isValidMessage }

/-! ### The DOM fallback extractor -/

/-- A `pre code` element: class name and text content. -/
structure DomCodeEl where
  className : String
  textContent : String
deriving DecidableEq

/-- An `img[src]` element. -/
structure DomImgEl where
  src : String
  naturalWidth : Int
  naturalHeight : Int
deriving DecidableEq

/-- One `[data-message-author-role]` element with the descendants the
extractor reads, in document order. -/
structure DomMessageEl where
  roleAttr : String
  textBlocks : List String
  codeEls : List DomCodeEl
  imgEls : List DomImgEl
deriving DecidableEq

/-- The live page as seen by `extractConversationFromDom`. -/
structure DomSnapshot where
  messageEls : List DomMessageEl
  h1Text : Option String
  docTitle : String
deriving DecidableEq

/-- A character the regex class `[a-z0-9_+-]` (with the `i` flag) accepts. -/
def isLangChar (c : Char) : Bool :=
  (('a' ≤ c ∧ c ≤ 'z') ∨ ('A' ≤ c ∧ c ≤ 'Z') ∨ c.isDigit ∨ c = '_' ∨ c = '+'
    ∨ c = '-' : Prop)

/-- Try `/language-([a-z0-9_+-]+)/i` anchored at the head of `l`. -/
def tryLanguageAt (l : List Char) : Option (List Char) :=
  if (l.take 9).map Char.toLower = "language-".toList then
    let run := (l.drop 9).takeWhile isLangChar
    if run ≠ [] then some run else none
  else none

/-- Leftmost match of `/language-([a-z0-9_+-]+)/i`, capture group 1. -/
def searchLanguage : List Char → Option (List Char)
  | [] => none
  | c :: cs =>
    match tryLanguageAt (c :: cs) with
    | some run => some run
    | none => searchLanguage cs

/-- The per-element part collection from `extractConversationFromDom`. -/
def domMessageParts (el : DomMessageEl) : List ContentPart :=
  let textParts : List ContentPart :=
    if el.textBlocks.length > 0 then
      let text := (String.intercalate "\n" el.textBlocks).trim
      if text ≠ "" then [.text text] else []
    else []
  let codeParts := el.codeEls.flatMap fun codeEl =>
    let language :=
      match searchLanguage codeEl.className.toList with
      | some run => String.mk run
      | none => ""
    let text := codeEl.textContent.trim
    if text ≠ "" then [ContentPart.code language text] else []
  let imgParts := el.imgEls.flatMap fun imgEl =>
    if imgEl.src = "" then []
    else
      [ContentPart.image imgEl.src
        (if imgEl.naturalWidth ≠ 0 then .num imgEl.naturalWidth else .null)
        (if imgEl.naturalHeight ≠ 0 then .num imgEl.naturalHeight else .null)
        "image/png"]
  textParts ++ codeParts ++ imgParts

/-- `extractConversationFromDom` from schema.js. -/
def extractConversationFromDom (env : JsEnv) (id : String) (dom : DomSnapshot) :
    NormalizedConversation :=
  let messages := dom.messageEls.foldl (fun acc el =>
    let role := if el.roleAttr ≠ "" then el.roleAttr else "unknown"
    let parts := domMessageParts el
    if parts.length > 0 then
      acc ++ [{ id := id ++ "_" ++ toString acc.length, role := role,
                createTime := none, parts := parts }]
    else acc) ([] : List NormalizedMessage)
  let rawTitle :=
    (match dom.h1Text with
     | some t => if t ≠ "" then t
         else if dom.docTitle ≠ "" then dom.docTitle else "Untitled Chat"
     | none => if dom.docTitle ≠ "" then dom.docTitle else "Untitled Chat").trim
  { id := id,
    title := if rawTitle ≠ "" then rawTitle else "Untitled Chat",
    createTime := none,
    updateTime := some (Int.fdiv env.nowMs 1000),
    model := none,
    customGptName := none,
    messages := messages }

/-- Result of the conversation-API fetch in `fetchAndNormalizeConversation`:
`failed` covers a thrown `fetch`, a non-ok status, and a `json()` failure
(all of which land in the same `catch`). -/
inductive ApiResult where
  | failed
  | ok (raw : JVal)

/-- `fetchAndNormalizeConversation` from schema.js, with the network and
DOM passed explicitly.  A thrown error is modelled as `Except.error`. -/
def fetchAndNormalizeConversation (env : JsEnv) (id : String)
    (api : ApiResult) (dom : DomSnapshot) : Except String NormalizedConversation :=
  let fromApi : Option NormalizedConversation :=
    match api with
    | .ok raw =>
      let normalized := validateConversation env (normalizeConversation env raw)
      if normalized.messages.length > 0 then some normalized else none
    | .failed => none
  match fromApi with
  | some n => .ok n
  | none =>
    let domFallback := extractConversationFromDom env id dom
    if domFallback.messages.length > 0 then .ok (validateConversation env domFallback)
    else .error ("Unable to extract conversation id=" ++ id ++ " from API or DOM")

/-! ### naming.js — slugs, dates, collision-free file names -/

/-- Membership in the regex class `[a-z0-9]` (character codes 97–122
and 48–57). -/
def isLowerAlnum (c : Char) : Bool :=
  (97 ≤ c.toNat ∧ c.toNat ≤ 122) ∨ (48 ≤ c.toNat ∧ c.toNat ≤ 57)

/-- A Unicode combining mark in the range the source strips:
`[̀-ͯ]`. -/
def isCombiningMark (c : Char) : Bool :=
  0x300 ≤ c.toNat ∧ c.toNat ≤ 0x36f

/-- `replace(/[^a-z0-9]+/g, "-")`: every maximal run of characters
outside `[a-z0-9]` becomes a single hyphen.  The boolean records whether
the previous character was part of such a run. -/
def collapseRuns : Bool → List Char → List Char
  | _, [] => []
  | prevRun, c :: cs =>
    if isLowerAlnum c then c :: collapseRuns false cs
    else if prevRun then collapseRuns true cs
    else '-' :: collapseRuns true cs

/-- `replace(/^-+|-+$/g, "")` on a character list: drop leading and
trailing hyphen runs. -/
def trimHyphens (l : List Char) : List Char :=
  ((l.dropWhile (· = '-')).reverse.dropWhile (· = '-')).reverse

/-- Drop a trailing hyphen run only (the final re-trim regex of
`slugify`, hyphen-plus anchored at the end). -/
def trimTrailingHyphens (l : List Char) : List Char :=
  (l.reverse.dropWhile (· = '-')).reverse

/-- `slugify` from naming.js: lowercase, NFD-decompose (environment
service), strip combining marks, collapse non-alphanumeric runs to
hyphens, trim hyphens, clip to 80, re-trim. -/
def slugify (env : JsEnv) (text : String) : String :=
  -- `toLowerCase()` modelled charwise (exact on the basic-latin range)
  let lowered := String.mk (text.toList.map Char.toLower)
  let decomposed := env.nfd lowered
  let stripped := decomposed.toList.filter (fun c => ¬ isCombiningMark c)
  let hyphened := collapseRuns false stripped
  let trimmed := trimHyphens hyphened
  String.mk (trimTrailingHyphens (trimmed.take 80))

/-- `String(n).padStart(2, "0")` for the month/day components. -/
def pad2 (n : Nat) : String :=
  let s := toString n
  if s.length < 2 then "0" ++ s else s

/-- `formatDate` from naming.js: "YYYY-MM-DD" of a Unix-seconds timestamp
in the local timezone (supplied by the environment), today when null. -/
def formatDate (env : JsEnv) (unixSeconds : Option Int) : String :=
  let ms := match unixSeconds with
    | some s => s * 1000
    | none => env.nowMs
  let ymd := env.localYMD ms
  toString ymd.1 ++ "-" ++ pad2 (ymd.2.1 + 1) ++ "-" ++ pad2 ymd.2.2

/-- JS `String.prototype.replace` with a string pattern: replace the
first occurrence only.  (The replacement values used by `buildFileName`
contain no `$` patterns, so a literal splice is exact.) -/
def replaceFirstL (pat rep : List Char) : List Char → List Char
  | [] => []
  | c :: cs =>
    if pat.isPrefixOf (c :: cs) then rep ++ (c :: cs).drop pat.length
    else c :: replaceFirstL pat rep cs

/-- `replaceFirstL` on strings. -/
def replaceFirst (s pat rep : String) : String :=
  String.mk (replaceFirstL pat.toList rep.toList s.toList)

/-- The pre-collision base name computed by `buildFileName`: template
tokens substituted, clipped to 100 characters. -/
def fileBase (env : JsEnv) (conversation : NormalizedConversation)
    (template : String) : String :=
  let dateStr := formatDate env
    (match conversation.updateTime with
     | some t => some t
     | none => conversation.createTime)
  let titleSlug := slugify env
    (if conversation.title ≠ "" then conversation.title else "untitled-chat")
  let idSlug := slugify env
    (if conversation.id ≠ "" then conversation.id else "no-id")
  let base := replaceFirst (replaceFirst (replaceFirst template
    "\x7bdate\x7d" dateStr) "\x7btitle\x7d" titleSlug) "\x7bid\x7d" idSlug
  String.mk (base.toList.take 100)

/-- The `while (used.has(candidate))` loop of `buildFileName`.  The fuel
only bounds the loop for Lean; `used.length + 1` suffices because the
candidates `base-2`, `base-3`, … are pairwise distinct, so at most
`used.length` of them can collide. -/
def resolveCollision (base : String) (used : List String) : Nat → Nat → String
  | suffix, 0 => base ++ "-" ++ toString suffix
  | suffix, fuel + 1 =>
    let candidate := base ++ "-" ++ toString suffix
    if used.contains candidate then resolveCollision base used (suffix + 1) fuel
    else candidate

/-- `buildFileName` from naming.js.  The JS version mutates the `used`
set; here the updated set is returned alongside the name. -/
def buildFileName (env : JsEnv) (conversation : NormalizedConversation)
    (template : String) (used : List String) : String × List String :=
  let base := fileBase env conversation template
  let candidate :=
    if used.contains base then resolveCollision base used 2 (used.length + 1)
    else base
  (candidate, used ++ [candidate])

/-- `getFolderPrefix` from naming.js (renamed: the archive sub-folder for
a conversation). -/
def folderPathOf (env : JsEnv) (conversation : NormalizedConversation) : String :=
  match conversation.customGptName with
  | some name =>
    if name ≠ "" then "custom-gpts/" ++ slugify env name ++ "/" else "chats/"
  | none => "chats/"

/-! ### exporter/html.js — the standalone HTML renderer -/

/-- `replaceAll` with a single-character pattern (every `replaceAll` in
the sources has a one-character pattern, so this charwise form is exact). -/
def replaceAllChar (c : Char) (rep : List Char) : List Char → List Char
  | [] => []
  | d :: ds =>
    if d = c then rep ++ replaceAllChar c rep ds
    else d :: replaceAllChar c rep ds

/-- `escapeHtml` from html.js: the five sequential `replaceAll` calls. -/
def escapeHtml (input : String) : String :=
  String.mk
    (replaceAllChar '\'' "&#39;".toList
      (replaceAllChar '"' "&quot;".toList
        (replaceAllChar '>' "&gt;".toList
          (replaceAllChar '<' "&lt;".toList
            (replaceAllChar '&' "&amp;".toList input.toList)))))

/-- The newline-to-`<br>` replacement applied to escaped text parts. -/
def nlToBr (s : String) : String :=
  String.mk (replaceAllChar '\n' "<br>".toList s.toList)

/-- `ROLE_LABELS` from html.js. -/
def roleLabels : List (String × String) :=
  [("user", "👤 User"), ("assistant", "🤖 Assistant"),
   ("system", "⚙️ System"), ("tool", "🔧 Tool")]

/-- `INLINE_CSS` from html.js (the template literal after `.trim()`). -/
def inlineCss : String :=
  "*, *::before, *::after \x7b box-sizing: border-box; \x7d
    body \x7b
      font-family: \"Segoe UI\", \"Helvetica Neue\", Arial, sans-serif;
      background: #f9fafb; color: #111827;
      margin: 0; padding: 24px;
      line-height: 1.6;
    \x7d
    .conversation \x7b max-width: 800px; margin: 0 auto; \x7d
    .conv-title \x7b font-size: 22px; font-weight: 700; margin-bottom: 20px; color: #111827; \x7d
" ++
  "    .message \x7b
      border: 1px solid #e5e7eb; border-radius: 12px;
      padding: 16px 20px; margin-bottom: 16px; background: #fff;
    \x7d
    .role-user    \x7b border-left: 4px solid #3b82f6; \x7d
    .role-assistant \x7b border-left: 4px solid #10b981; \x7d
    .role-tool    \x7b border-left: 4px solid #f59e0b; \x7d
    .role-label \x7b font-size: 13px; font-weight: 600; margin: 0 0 10px; color: #6b7280; \x7d
    .content \x7b font-size: 15px; \x7d
" ++
  "    .text-part \x7b margin: 0 0 10px; white-space: pre-wrap; word-break: break-word; \x7d
    pre \x7b
      background: #1e293b; color: #e2e8f0;
      border-radius: 8px; padding: 14px 16px;
      overflow-x: auto; margin: 10px 0;
      font-size: 13px;
    \x7d
    code \x7b font-family: \"Cascadia Code\", \"Fira Code\", Consolas, monospace; \x7d
    .image-part img \x7b border-radius: 8px; border: 1px solid #e5e7eb; \x7d
    .image-placeholder \x7b color: #9ca3af; font-style: italic; \x7d
    @media print \x7b
      body \x7b background: #fff; padding: 0; \x7d
      .message \x7b break-inside: avoid; \x7d
    \x7d"

/-- `HIGHLIGHT_INIT` from html.js (the template literal after `.trim()`). -/
def highlightInit : String :=
  "document.addEventListener(\"DOMContentLoaded\", function() \x7b
    if (typeof hljs !== \"undefined\") \x7b
      document.querySelectorAll(\"pre code\").forEach(function(el) \x7b
        hljs.highlightElement(el);
      \x7d);
    \x7d
  \x7d);"

/-- `renderPart` from html.js. -/
def renderPart (part : ContentPart) (imageDataUrls : List (String × String)) :
    String :=
  match part with
  | .text t =>
    "<p class=\"text-part\">" ++ nlToBr (escapeHtml t) ++ "</p>"
  | .code language t =>
    let lang := escapeHtml language
    let codeHtml := escapeHtml t
    "<pre><code class=\"language-" ++ lang ++ "\">" ++ codeHtml ++ "</code></pre>"
  | .image assetId _ _ _ =>
    let src := match imageDataUrls.lookup assetId with
      | some s => s
      | none => ""
    let alt := "Uploaded image (" ++ assetId ++ ")"
    if src ≠ "" then
      "<figure class=\"image-part\"><img src=\"" ++ src ++ "\" alt=\"" ++
        escapeHtml alt ++ "\" style=\"max-width:100%\"></figure>"
    else
      "<p class=\"image-placeholder\">[Image: " ++ escapeHtml assetId ++ "]</p>"
  | .unknown => ""

/-- `renderMessage` from html.js. -/
def renderMessage (message : NormalizedMessage)
    (imageDataUrls : List (String × String)) : String :=
  let role := if message.role ≠ "" then message.role else "unknown"
  let label := match roleLabels.lookup role with
    | some l => l
    | none => escapeHtml role
  let partsHtml := String.intercalate "\n"
    (message.parts.map (renderPart · imageDataUrls))
  let roleClass := "role-" ++
    String.mk (role.toList.filter fun c => 97 ≤ c.toNat ∧ c.toNat ≤ 122)
  "    <article class=\"message " ++ roleClass ++ "\">\n" ++
  "      <h2 class=\"role-label\">" ++ label ++ "</h2>\n" ++
  "      <div class=\"content\">" ++ partsHtml ++ "</div>\n" ++
  "    </article>"

/-- The document text before the first `${title}` interpolation. -/
def htmlDocPre : String :=
  "<!doctype html>\n<html lang=\"en\">\n<head>\n  <meta charset=\"utf-8\">\n" ++
  "  <meta name=\"viewport\" content=\"width=device-width, initial-scale=1\">\n" ++
  "  <title>"

/-- The document text between the two `${title}` interpolations. -/
def htmlDocMid : String :=
  "</title>\n  <style>\n" ++ inlineCss ++ "\n  </style>\n  <script>\n" ++
  highlightInit ++ "\n  </script>\n</head>\n<body>\n" ++
  "  <main class=\"conversation\">\n    <h1 class=\"conv-title\">"

/-- The document text after the second `${title}` interpolation. -/
def htmlDocPost (bodyHtml : String) : String :=
  "</h1>\n" ++ bodyHtml ++ "\n  </main>\n</body>\n</html>"

/-- `renderHtmlConversation` from html.js. -/
def renderHtmlConversation (conversation : NormalizedConversation)
    (imageDataUrls : List (String × String)) : String :=
  let title := escapeHtml
    (if conversation.title ≠ "" then conversation.title else "Untitled Chat")
  let bodyHtml := String.intercalate "\n"
    (conversation.messages.map (renderMessage · imageDataUrls))
  htmlDocPre ++ title ++ htmlDocMid ++ title ++ htmlDocPost bodyHtml

/-! ### exporter/json.js — the JSON renderer -/

/-- The JSON values `JSON.stringify` receives from the JSON exporter. -/
inductive JsonV where
  | jnull
  | jnum (n : Int)
  | jstr (s : String)
  | jarr (xs : List JsonV)
  | jobj (fields : List (String × JsonV))

/-- `JSON.stringify` escaping of one string character. -/
def jsonEscapeChar (c : Char) : List Char :=
  if c = '"' then "\\\"".toList
  else if c = '\\' then "\\\\".toList
  else if c = '\n' then "\\n".toList
  else if c = '\r' then "\\r".toList
  else if c = '\t' then "\\t".toList
  else if c = '\x08' then "\\b".toList
  else if c = '\x0c' then "\\f".toList
  else if c.toNat < 0x20 then
    ("\\u00" ++ pad2Hex c.toNat).toList
  else [c]
where
  pad2Hex (n : Nat) : String :=
    let digits := "0123456789abcdef".toList
    String.mk [digits.getD (n / 16) '0', digits.getD (n % 16) '0']

/-- A JSON string literal as `JSON.stringify` prints it. -/
def jsonQuote (s : String) : String :=
  "\"" ++ String.mk (s.toList.flatMap jsonEscapeChar) ++ "\""

/-- `JSON.stringify(v, null, 2)`: the standard pretty-printer with a
two-space gap.  The fuel bounds the recursion depth for Lean; the fixed
payload shape of the JSON exporter has depth at most 3, so `fuel = 5`
never runs out on its inputs. -/
def jsonStringify : Nat → JsonV → String → String
  | 0, _, _ => ""
  | _ + 1, .jnull, _ => "null"
  | _ + 1, .jnum n, _ => toString n
  | _ + 1, .jstr s, _ => jsonQuote s
  | fuel + 1, .jarr xs, indent =>
    if xs.isEmpty then "[]"
    else
      "[\n" ++
      String.intercalate ",\n"
        (xs.map fun x => indent ++ "  " ++ jsonStringify fuel x (indent ++ "  ")) ++
      "\n" ++ indent ++ "]"
  | fuel + 1, .jobj fields, indent =>
    if fields.isEmpty then "\x7b\x7d"
    else
      "\x7b\n" ++
      String.intercalate ",\n"
        (fields.map fun kv => indent ++ "  " ++ jsonQuote kv.1 ++ ": " ++
          jsonStringify fuel kv.2 (indent ++ "  ")) ++
      "\n" ++ indent ++ "\x7d"

/-- The per-part flattener inside `flattenPartsToText`. -/
def partToText (part : ContentPart) : String :=
  match part with
  | .text t => t
  | .code language t =>
    "```" ++ language ++ "\n" ++ t ++ "\n```"
  | .image assetId _ _ _ => "[image: " ++ assetId ++ "]"
  | .unknown => ""

/-- `flattenPartsToText` from json.js (parts are typed, so the
`Array.isArray` guard is always taken). -/
def flattenPartsToText (parts : List ContentPart) : String :=
  String.intercalate "\n\n" (parts.map partToText)

/-- The `payload` object built by `renderJsonConversation`, as a JSON
value.  JS string fields of typed records make `|| ""` the identity
except on the empty string, which it maps to itself too, so those are
spelled directly. -/
def renderJsonPayload (conversation : NormalizedConversation) : JsonV :=
  .jobj
    [("id", .jstr conversation.id),
     ("title", .jstr conversation.title),
     ("create_time", match conversation.createTime with
       | some t => .jnum t
       | none => .jnull),
     ("update_time", match conversation.updateTime with
       | some t => .jnum t
       | none => .jnull),
     ("model", match conversation.model with
       | some m => if m ≠ "" then .jstr m else .jnull
       | none => .jnull),
     ("custom_gpt", match conversation.customGptName with
       | some g => if g ≠ "" then .jstr g else .jnull
       | none => .jnull),
     ("messages", .jarr (conversation.messages.map fun m =>
       .jobj
         [("id", .jstr m.id),
          ("role", .jstr (if m.role ≠ "" then m.role else "unknown")),
          ("content", .jstr (flattenPartsToText m.parts)),
          ("create_time", match m.createTime with
            | some t => .jnum t
            | none => .jnull)]))]

/-- `renderJsonConversation` from json.js. -/
def renderJsonConversation (conversation : NormalizedConversation) : String :=
  jsonStringify 5 (renderJsonPayload conversation) ""

/-! ### exporter/markdown.js — the Markdown renderer -/

/-- `formatRole` from markdown.js. -/
def formatRole (role : String) : String :=
  match roleLabels.lookup role with
  | some l => l
  | none =>
    match role.toList with
    | [] => ""
    | c :: rest => String.mk (c.toUpper :: rest)

/-- The lines a single part contributes in `renderMarkdownConversation`. -/
def markdownPartLines (imageFileNames : List (String × String))
    (part : ContentPart) : List String :=
  match part with
  | .text t =>
    [if t.trim ≠ "" then t.trim else "_(empty)_", ""]
  | .code language t =>
    ["```" ++ language, t, "```", ""]
  | .image assetId _ _ _ =>
    let fileName := match imageFileNames.lookup assetId with
      | some f => f
      | none => assetId ++ ".png"
    ["![image](./images/" ++ fileName ++ ")", ""]
  | .unknown => []

/-- `renderMarkdownConversation` from markdown.js. -/
def renderMarkdownConversation (conversation : NormalizedConversation)
    (imageFileNames : List (String × String)) : String :=
  let title := if conversation.title ≠ "" then conversation.title
    else "Untitled Chat"
  let lines :=
    ["# " ++ title, ""] ++
    conversation.messages.flatMap fun message =>
      let role := formatRole (if message.role ≠ "" then message.role else "unknown")
      ["## " ++ role, ""] ++
      (if message.parts.isEmpty then ["_(empty)_", ""]
       else message.parts.flatMap (markdownPartLines imageFileNames))
  String.intercalate "\n" lines

/-! ### images.js — the asset resolver -/

/-- A fetched image asset (`bytes` is the `ArrayBuffer` content). -/
structure ImageRecord where
  assetId : String
  bytes : List Nat
  mimeType : String
deriving DecidableEq

/-- Outcome of `fetch(url)` plus the subsequent `resp.ok`,
`resp.headers.get("content-type")` and `resp.arrayBuffer()` accesses:
`netThrow` is a rejected fetch, `httpError` a non-ok status, and in the
`ok` case the body is `Except.error` when `arrayBuffer()` itself throws
(which the sources do not catch). -/
inductive NetResult where
  | netThrow
  | httpError
  | ok (contentType : Option String) (body : Except Unit (List Nat))

/-- The browser services used by images.js. -/
structure ImgEnv where
  /-- the network, keyed by URL. -/
  fetchUrl : String → NetResult
  /-- `atob(payload)` followed by the `charCodeAt` loop; `none` when
  `atob` throws on malformed base64. -/
  atobBytes : String → Option (List Nat)
  /-- `decodeURIComponent`; `none` when it throws. -/
  decodeUriComponent : String → Option String
  /-- `new TextEncoder().encode`. -/
  utf8Encode : String → List Nat
  /-- `extractBlobImageFromDom` condensed: locating the `img` element for
  a blob URL and recovering its pixels through a canvas is pure DOM/canvas
  interaction, so its outcome (bytes and `blob.type` on success, `none`
  on any of its null-returning failure paths) is an environment service;
  on success the source always sets `assetId` to the blob URL. -/
  domBlobImage : String → Option (List Nat × String)

/-- JS `a || b` on strings. -/
def jsOrStr (a b : String) : String := if a ≠ "" then a else b

/-- Case-insensitive-free substring test (`String.prototype.includes`). -/
def hasSubAux (pat : List Char) : List Char → Bool
  | [] => pat.isPrefixOf []
  | c :: cs => pat.isPrefixOf (c :: cs) || hasSubAux pat cs

/-- `s.includes(pat)`. -/
def strHasSub (s pat : String) : Bool := hasSubAux pat.toList s.toList

/-- `inferMimeTypeFromUrl` from images.js. -/
def inferMimeTypeFromUrl (url : String) : String :=
  let lower := String.mk (url.toList.map Char.toLower)
  if strHasSub lower ".jpg" || strHasSub lower ".jpeg" then "image/jpeg"
  else if strHasSub lower ".webp" then "image/webp"
  else if strHasSub lower ".gif" then "image/gif"
  else "image/png"

/-- `fetchImageFromUrl` from images.js. -/
def fetchImageFromUrl (env : ImgEnv) (url fallbackMimeType : String) :
    Except Unit (Option ImageRecord) :=
  match env.fetchUrl url with
  | .netThrow => .ok none
  | .httpError => .ok none
  | .ok contentType body =>
    match body with
    | .error e => .error e
    | .ok bytes =>
      let ct := jsOrStr (contentType.getD "")
        (jsOrStr fallbackMimeType (inferMimeTypeFromUrl url))
      .ok (some { assetId := url, bytes := bytes, mimeType := ct })

/-- Split a character list at the first occurrence of `c` (the separator
is dropped); `none` when `c` does not occur. -/
def splitAtFirstChar (c : Char) : List Char → Option (List Char × List Char)
  | [] => none
  | d :: ds =>
    if d = c then some ([], ds)
    else
      match splitAtFirstChar c ds with
      | some (a, b) => some (d :: a, b)
      | none => none

/-- The data-URI regex of `decodeDataUriAsset` as a parser:
after `data:`, group 1 is a maximal nonempty run without `;`/`,`
(possibly absent), group 2 is a sequence of `;`-led attribute groups
(`;` followed by at least one non-comma character, greedily), then the
first comma, then the payload.  Returns (mime group, attrs, payload). -/
def dataUriParse (s : String) : Option (String × String × String) :=
  if "data:".isPrefixOf s then
    match splitAtFirstChar ',' (s.toList.drop 5) with
    | none => none
    | some (head, payload) =>
      let m1 := head.takeWhile (· ≠ ';')
      let attrs := head.dropWhile (· ≠ ';')
      -- `(;[^,]+)*` matches `attrs` iff it is empty or the leading `;`
      -- is followed by at least one more (non-comma) character
      if attrs.isEmpty || attrs.length ≥ 2 then
        some (String.mk m1, String.mk attrs, String.mk payload)
      else none
  else none

/-- `decodeDataUriAsset` from images.js. -/
def decodeDataUriAsset (env : ImgEnv) (dataUri : String) : Option ImageRecord :=
  match dataUriParse dataUri with
  | none => none
  | some (m1, attrs, payload) =>
    let mime := jsOrStr m1 "image/png"
    let isBase64 := hasSubAux ";base64".toList (attrs.toList.map Char.toLower)
    if isBase64 then
      match env.atobBytes payload with
      | some bytes => some { assetId := dataUri, bytes := bytes, mimeType := mime }
      | none => none
    else
      match env.decodeUriComponent payload with
      | some decoded =>
        some { assetId := dataUri, bytes := env.utf8Encode decoded, mimeType := mime }
      | none => none

/-- `extractBlobImageFromDom` from images.js (DOM/canvas steps condensed
into `ImgEnv.domBlobImage`, see there). -/
def extractBlobImageFromDom (env : ImgEnv) (blobUrl fallbackMimeType : String) :
    Option ImageRecord :=
  match env.domBlobImage blobUrl with
  | some (bytes, blobType) =>
    some { assetId := blobUrl, bytes := bytes,
           mimeType := jsOrStr blobType (jsOrStr fallbackMimeType "image/png") }
  | none => none

/-- Strip a prefix if present (the anchored `replace` in images.js). -/
def dropPrefixStr (pat s : String) : String :=
  if pat.isPrefixOf s then String.mk (s.toList.drop pat.length) else s

/-- `fetchImageAsset` from lib/images.js (the full version with
data:/blob:/http(s) handling). -/
def fetchImageAsset (env : ImgEnv) (assetId : String)
    (mimeType : String := "image/png") : Except Unit (Option ImageRecord) :=
  if "data:".isPrefixOf assetId then
    .ok (decodeDataUriAsset env assetId)
  else if "blob:".isPrefixOf assetId then
    match fetchImageFromUrl env assetId mimeType with
    | .error e => .error e
    | .ok (some fetched) => .ok (some fetched)
    | .ok none => .ok (extractBlobImageFromDom env assetId mimeType)
  else if "http://".isPrefixOf assetId || "https://".isPrefixOf assetId then
    fetchImageFromUrl env assetId mimeType
  else
    let fileId := dropPrefixStr "file-service://" assetId
    let url := "https://files.oaiusercontent.com/" ++ fileId
    match env.fetchUrl url with
    | .netThrow => .ok none
    | .httpError => .ok none
    | .ok contentType body =>
      match body with
      | .error e => .error e
      | .ok bytes =>
        .ok (some { assetId := assetId, bytes := bytes,
                    mimeType := jsOrStr (contentType.getD "") mimeType })

/-- One step of the inner part loop of `fetchConversationImages`:
state is (images so far, seen asset ids). -/
def fetchImagesStep (env : ImgEnv)
    (acc : List ImageRecord × List String) (part : ContentPart) :
    List ImageRecord × List String :=
  match part with
  | .image assetId _ _ mime =>
    if acc.2.contains assetId then acc
    else
      let seen := acc.2 ++ [assetId]
      match fetchImageAsset env assetId mime with
      | .ok (some record) => (acc.1 ++ [record], seen)
      | .ok none => (acc.1, seen)
      | .error _ => (acc.1, seen)
  | _ => acc

/-- `fetchConversationImages` from images.js. -/
def fetchConversationImages (env : ImgEnv)
    (conversation : NormalizedConversation) : List ImageRecord :=
  (conversation.messages.foldl
    (fun acc msg => msg.parts.foldl (fetchImagesStep env) acc)
    (([], []) : List ImageRecord × List String)).1

/-! ### exporter/packager.js — ZIP assembly -/

/-- An index entry pushed per record by `packageZip`. -/
structure IndexEntry where
  title : String
  folder : String
  baseName : String
  formats : List String
deriving DecidableEq

/-- A failure record accumulated by the export loop. -/
structure FailureRecord where
  id : String
  title : String
  error : String
deriving DecidableEq

/-- One exported conversation with its fetched images. -/
structure ConvExportRecord where
  conversation : NormalizedConversation
  images : List ImageRecord
deriving DecidableEq

/-- Content of one file inside the assembled ZIP. -/
inductive ZipFileData where
  | textF (content : String)
  | binF (bytes : List Nat)
deriving DecidableEq

/-- The assembled archive: the ZIP is modelled as its file map plus the
index entries (compression is an opaque service). -/
structure PackagedZip where
  files : List (String × ZipFileData)
  indexEntries : List IndexEntry
deriving DecidableEq

/-- One sextet group of `btoa`. -/
def base64Char (n : Nat) : Char :=
  "ABCDEFGHIJKLMNOPQRSTUVWXYZabcdefghijklmnopqrstuvwxyz0123456789+/".toList.getD
    n 'A'

/-- `arrayBufferToBase64` from packager.js (`btoa` over the byte string). -/
def b64Groups : List Nat → List Char
  | [] => []
  | [a] => [base64Char (a / 4), base64Char (a % 4 * 16), '=', '=']
  | [a, b] =>
    [base64Char (a / 4), base64Char (a % 4 * 16 + b / 16),
     base64Char (b % 16 * 4), '=']
  | a :: b :: c :: rest =>
    [base64Char (a / 4), base64Char (a % 4 * 16 + b / 16),
     base64Char (b % 16 * 4 + c / 64), base64Char (c % 64)] ++ b64Groups rest

/-- `arrayBufferToBase64` from packager.js. -/
def arrayBufferToBase64 (bytes : List Nat) : String :=
  String.mk (b64Groups bytes)

/-- `escHtml` from packager.js (three replacements only). -/
def escHtmlIdx (s : String) : String :=
  String.mk
    (replaceAllChar '>' "&gt;".toList
      (replaceAllChar '<' "&lt;".toList
        (replaceAllChar '&' "&amp;".toList s.toList)))

/-- `Map.set` on an association list: the last write wins on lookup. -/
def assocSet (m : List (String × String)) (k v : String) :
    List (String × String) :=
  (m.filter fun kv => kv.1 ≠ k) ++ [(k, v)]

/-- `buildIndexHtml` from packager.js. -/
def buildIndexHtml (env : JsEnv) (entries : List IndexEntry) : String :=
  let rows := entries.map fun e =>
    let links := String.intercalate " &middot; "
      (((e.formats.filter fun f => f = "html" ∨ f = "markdown" ∨ f = "json").map
        fun f =>
          let ext := if f = "markdown" then "md" else f
          "<a href=\"./" ++ e.folder ++ e.baseName ++ "." ++ ext ++ "\">" ++
            String.mk (ext.toList.map Char.toUpper) ++ "</a>"))
    "<li><span class=\"title\">" ++ escHtmlIdx e.title ++ "</span> &mdash; " ++
      links ++ "</li>"
  "<!doctype html>\n<html lang=\"en\">\n<head>\n  <meta charset=\"utf-8\">\n" ++
  "  <meta name=\"viewport\" content=\"width=device-width,initial-scale=1\">\n" ++
  "  <title>ChatGPT Export Index</title>\n  <style>\n" ++
  "    body\x7bfont-family:\"Segoe UI\",sans-serif;max-width:800px;margin:40px auto;color:#111\x7d\n" ++
  "    h1\x7bfont-size:22px;margin-bottom:20px\x7d\n" ++
  "    ul\x7blist-style:none;padding:0\x7d\n" ++
  "    li\x7bpadding:8px 0;border-bottom:1px solid #e5e7eb\x7d\n" ++
  "    .title\x7bfont-weight:600\x7d\n" ++
  "    a\x7bcolor:#2563eb;text-decoration:none\x7d\n" ++
  "    a:hover\x7btext-decoration:underline\x7d\n" ++
  "  </style>\n</head>\n<body>\n  <h1>ChatGPT Export — " ++
  env.localeDateString ++ "</h1>\n  <ul>\n    " ++
  String.intercalate "\n    " rows ++
  "\n  </ul>\n  <p style=\"margin-top:24px;font-size:12px;color:#6b7280\">\n" ++
  "    Exported by ChatGPT Conversation Exporter &middot; " ++
  toString entries.length ++ " conversation(s)\n  </p>\n</body>\n</html>"

/-- `buildSummaryReport` from packager.js. -/
def buildSummaryReport (env : JsEnv) (records : List ConvExportRecord)
    (failures : List FailureRecord) : String :=
  let lines :=
    ["ChatGPT Conversation Exporter — Export Summary",
     String.mk (List.replicate 50 '='),
     "Exported at : " ++ env.isoNowString,
     "Successful  : " ++ toString records.length,
     "Failed      : " ++ toString failures.length,
     ""] ++
    (if failures.length > 0 then
      ["Failed Conversations:"] ++
      failures.map (fun f =>
        "  - " ++ f.id ++ " (\"" ++ f.title ++ "\"): " ++ f.error) ++
      [""]
     else []) ++
    ["Formats exported: " ++
      (if records.length > 0 then "see individual files" else "n/a")]
  String.intercalate "\n" lines

/-- Per-record accumulator state inside `packageZip`. -/
structure PackState where
  usedNames : List String
  files : List (String × ZipFileData)
  indexEntries : List IndexEntry
deriving DecidableEq

/-- The image sub-loop of `packageZip`: writes raw bytes and builds the
two per-record maps (relative names for Markdown, data URLs for HTML).
`j` is the loop index. -/
def packImages (rootFolder baseSlug : String) :
    List ImageRecord → Nat →
    List (String × ZipFileData) × List (String × String) ×
      List (String × String) →
    List (String × ZipFileData) × List (String × String) ×
      List (String × String)
  | [], _, acc => acc
  | img :: rest, j, (files, imageMap, dataUrlMap) =>
    let imgName := baseSlug ++ "_" ++ toString j ++ ".png"
    let imgPath := rootFolder ++ "/images/" ++ imgName
    packImages rootFolder baseSlug rest (j + 1)
      (files ++ [(imgPath, .binF img.bytes)],
       assocSet imageMap img.assetId imgName,
       assocSet dataUrlMap img.assetId
         ("data:" ++ jsOrStr img.mimeType "image/png" ++ ";base64," ++
           arrayBufferToBase64 img.bytes))

/-- The per-record body of the `packageZip` loop. -/
def packStep (env : JsEnv) (formats : List String) (template : String)
    (rootFolder : String) (st : PackState) (record : ConvExportRecord) :
    PackState :=
  let conv := record.conversation
  let named := buildFileName env conv template st.usedNames
  let baseName := named.1
  let usedNames := named.2
  let folderPfx := folderPathOf env conv
  let packed := packImages rootFolder (slugify env baseName) record.images 0
    ([], [], [])
  let imgFiles := packed.1
  let imageMap := packed.2.1
  let dataUrlMap := packed.2.2
  let fmtFiles :=
    (if formats.contains "html" then
      [(rootFolder ++ "/" ++ folderPfx ++ baseName ++ ".html",
        ZipFileData.textF (renderHtmlConversation conv dataUrlMap))]
     else []) ++
    (if formats.contains "markdown" then
      [(rootFolder ++ "/" ++ folderPfx ++ baseName ++ ".md",
        ZipFileData.textF (renderMarkdownConversation conv imageMap))]
     else []) ++
    (if formats.contains "json" then
      [(rootFolder ++ "/" ++ folderPfx ++ baseName ++ ".json",
        ZipFileData.textF (renderJsonConversation conv))]
     else [])
  { usedNames := usedNames,
    files := st.files ++ imgFiles ++ fmtFiles,
    indexEntries := st.indexEntries ++
      [{ title := jsOrStr conv.title "Untitled Chat", folder := folderPfx,
         baseName := baseName, formats := formats }] }

/-- `packageZip` from packager.js (JSZip and the bundled highlight.js are
opaque services; the third argument the source passes to
`renderHtmlConversation` is ignored by its two-parameter signature). -/
def packageZip (env : JsEnv) (records : List ConvExportRecord)
    (formats : List String) (template : String)
    (failures : List FailureRecord) : PackagedZip :=
  let rootFolder := "chatgpt-export_" ++
    formatDate env (some (Int.fdiv env.nowMs 1000))
  let st := records.foldl (packStep env formats template rootFolder) ⟨[], [], []⟩
  let files := st.files ++
    (if formats.contains "html" then
      [(rootFolder ++ "/index.html",
        ZipFileData.textF (buildIndexHtml env st.indexEntries))]
     else []) ++
    [(rootFolder ++ "/export-summary.txt",
      ZipFileData.textF (buildSummaryReport env records failures))]
  { files := files, indexEntries := st.indexEntries }

/-! ### content_script.js / service_worker.js — run control and state -/

/-- The cooperative cancellation token (`runToken` in content_script.js). -/
structure RunToken where
  cancelled : Bool
deriving DecidableEq

/-- Content-script module state: `activeRun` is `null` or the token of a
started, unfinished run (the `finally` handler nulls it on completion). -/
structure CsState where
  activeRun : Option RunToken
deriving DecidableEq

/-- The `RUN_EXPORT` message handler from content_script.js: the returned
flag is the `ok` field of the response.  On acceptance a fresh token
becomes the active run and `executeExport` is started. -/
def handleRunExport (st : CsState) : CsState × Bool :=
  match st.activeRun with
  | some tok =>
    if ¬ tok.cancelled then (st, false)
    else ({ activeRun := some { cancelled := false } }, true)
  | none => ({ activeRun := some { cancelled := false } }, true)

/-- The `STOP_EXPORT` message handler from content_script.js: sets the
cancellation flag of the active run, if any; always responds ok. -/
def handleStopExport (st : CsState) : CsState :=
  match st.activeRun with
  | some _ => { activeRun := some { cancelled := true } }
  | none => st

/-- The persisted `resumeState` blob (schema from messages.js and
`handleStartExport`). -/
structure ResumeState where
  schemaVersion : Int
  exportId : String
  scope : String
  formats : List String
  status : String
  startedAt : Int
  allIds : List String
  completedIds : List String
deriving DecidableEq

/-- The persisted `preferences` blob. -/
structure Preferences where
  defaultFormats : List String
  namingTemplate : String
deriving DecidableEq

/-- `chrome.storage.local` as used by the service worker. -/
structure WorkerStorage where
  preferences : Option Preferences
  resumeState : Option ResumeState
deriving DecidableEq

/-- The storage effect of `handleCancelExport` in service_worker.js:
`chrome.storage.local.remove(STATE_KEYS.RESUME)` (the handler then sends
a best-effort `STOP_EXPORT` to the tab, modelled by `handleStopExport`
on the content-script side). -/
def handleCancelExport (w : WorkerStorage) : WorkerStorage :=
  { w with resumeState := none }

/-- A progress payload as inspected by the `EXPORT_PROGRESS` handler
(`allIds`/`lastCompletedId` are `none` when absent; an empty
`lastCompletedId` string is falsy in the source and also modelled as
`none`). -/
structure ProgressPayload where
  phase : String
  allIds : Option (List String)
  lastCompletedId : Option String
deriving DecidableEq

/-- The storage effect of the `EXPORT_PROGRESS` handler in
service_worker.js. -/
def handleExportProgress (w : WorkerStorage) (p : ProgressPayload) :
    WorkerStorage :=
  match w.resumeState with
  | none => w
  | some st0 =>
    let st1 := match p.allIds with
      | some ids => { st0 with allIds := ids }
      | none => st0
    let st2 := if p.phase = "exporting" ∨ p.phase = "packaging" then
        { st1 with status := "in_progress" } else st1
    let st3 := if p.phase = "exporting" then
        match p.lastCompletedId with
        | some cid =>
          if st2.completedIds.contains cid then st2
          else { st2 with completedIds := st2.completedIds ++ [cid] }
        | none => st2
      else st2
    let st4 := if p.phase = "done" then { st3 with status := "done" } else st3
    { w with resumeState := some st4 }

/-- The storage effect of a successful `TRIGGER_DOWNLOAD`:
`chrome.storage.local.remove(STATE_KEYS.RESUME)` after the download
starts. -/
def handleDownloadStarted (w : WorkerStorage) : WorkerStorage :=
  { w with resumeState := none }

/-! ### content_script.js — the `executeExport` pipeline -/

/-- A discovered conversation (id and title from the history API). -/
structure ConvMeta where
  id : String
  title : String
deriving DecidableEq

/-- The collaborators of one `executeExport` run (discovery result,
persisted resume state, the network loaders, preferences).  The
navigation/DOM fallback of `loadConversationForExport` is inside the
`load` oracle; the modelled scope is `current`/`full`, where the
selection prompt is skipped. -/
structure ExpEnv where
  metas : List ConvMeta
  resumeCompletedIds : List String
  load : String → Except String NormalizedConversation
  imagesOf : NormalizedConversation → List ImageRecord
  formats : List String
  namingTemplate : String

/-- How one run terminates: `done`, or the unwind through the cancelled
`catch` branch (phase `"error"`, message `"Export cancelled."`). -/
inductive RunOutcome where
  | done
  | cancelledErr
deriving DecidableEq

/-- Observable outcome of one `executeExport` run. -/
structure RunResult where
  outcome : RunOutcome
  attempted : List String
  records : List ConvExportRecord
  failures : List FailureRecord
  archive : Option PackagedZip
  downloadTriggered : Bool
deriving DecidableEq

/-- The cooperative flag as seen by the k-th `throwIfCancelled` poll:
`cancelAt = some n` means the flag was set between polls `n-1` and `n`
(and stays set); `none` means it is never set. -/
def cancelFired (cancelAt : Option Nat) (k : Nat) : Bool :=
  match cancelAt with
  | some n => n ≤ k
  | none => false

/-- A cancelled-unwind result. -/
def cancelledResult (attempted : List String) (records : List ConvExportRecord)
    (failures : List FailureRecord) : RunResult :=
  { outcome := .cancelledErr, attempted := attempted, records := records,
    failures := failures, archive := none, downloadTriggered := false }

/-- The per-item loop of `executeExport` (steps 2–3).  The poll counter
`k` advances at every `throwIfCancelled`; a cancellation observed at the
two polls inside the per-item `try` is caught by the item's `catch`
(recording an "Export cancelled" failure) and the loop unwinds at the
next top-of-loop poll.  Returns the final poll counter, the ids passed
to the loader, the records, the failures, and whether the loop was
aborted by cancellation. -/
def execItems (env : ExpEnv) (cancelAt : Option Nat) :
    List ConvMeta → Nat → List String → List ConvExportRecord →
    List FailureRecord →
    Nat × List String × List ConvExportRecord × List FailureRecord × Bool
  | [], k, att, recs, fails => (k, att, recs, fails, false)
  | meta :: rest, k, att, recs, fails =>
    if cancelFired cancelAt k then (k + 1, att, recs, fails, true)
    else if env.resumeCompletedIds.contains meta.id then
      execItems env cancelAt rest (k + 1) att recs fails
    else
      let att1 := att ++ [meta.id]
      match env.load meta.id with
      | .error e =>
        execItems env cancelAt rest (k + 1) att1 recs
          (fails ++ [{ id := meta.id, title := jsOrStr meta.title "Untitled Chat",
                       error := e }])
      | .ok conversation =>
        if cancelFired cancelAt (k + 1) then
          execItems env cancelAt rest (k + 2) att1 recs
            (fails ++ [{ id := meta.id, title := jsOrStr meta.title "Untitled Chat",
                         error := "Export cancelled" }])
        else
          let images := env.imagesOf conversation
          if cancelFired cancelAt (k + 2) then
            execItems env cancelAt rest (k + 3) att1 recs
              (fails ++ [{ id := meta.id,
                           title := jsOrStr meta.title "Untitled Chat",
                           error := "Export cancelled" }])
          else
            execItems env cancelAt rest (k + 3) att1
              (recs ++ [{ conversation := conversation, images := images }]) fails

/-- `executeExport` from content_script.js: discovery → resume-state
lookup → per-item fetch/normalize/images with checkpoints → packaging →
download trigger, with `throwIfCancelled` polls at every suspension
point. -/
def executeExport (env : JsEnv) (run : ExpEnv) (cancelAt : Option Nat) :
    RunResult :=
  if cancelFired cancelAt 0 then cancelledResult [] [] []
  else if cancelFired cancelAt 1 then cancelledResult [] [] []
  else if cancelFired cancelAt 2 then cancelledResult [] [] []
  else
    match execItems run cancelAt run.metas 3 [] [] [] with
    | (_, att, recs, fails, true) => cancelledResult att recs fails
    | (k, att, recs, fails, false) =>
      if cancelFired cancelAt k then cancelledResult att recs fails
      else
        let template := jsOrStr run.namingTemplate "\x7bdate\x7d_\x7btitle\x7d"
        let archive := packageZip env recs run.formats template fails
        if cancelFired cancelAt (k + 1) then
          { outcome := .cancelledErr, attempted := att, records := recs,
            failures := fails, archive := some archive,
            downloadTriggered := false }
        else
          { outcome := .done, attempted := att, records := recs,
            failures := fails, archive := some archive,
            downloadTriggered := true }

/-! ### Support definitions for the specification statements -/

/-- Number of (possibly overlapping) occurrences of `pat` in `l`. -/
def countSub (pat : List Char) : List Char → Nat
  | [] => 0
  | c :: cs => (if pat.isPrefixOf (c :: cs) then 1 else 0) + countSub pat cs

/-- Top-level keys of a JSON object value. -/
def jTopKeys : JsonV → List String
  | .jobj fields => fields.map Prod.fst
  | _ => []

/-- Field lookup in a JSON object value. -/
def jField (v : JsonV) (k : String) : Option JsonV :=
  match v with
  | .jobj fields => fields.lookup k
  | _ => none

/-- Whether the API arm of `fetchAndNormalizeConversation` yields a
conversation with at least one message. -/
def apiYieldsMessages (env : JsEnv) (api : ApiResult) : Prop :=
  match api with
  | .ok raw =>
    (validateConversation env (normalizeConversation env raw)).messages ≠ []
  | .failed => False

instance (env : JsEnv) (api : ApiResult) : Decidable (apiYieldsMessages env api) := by
  unfold apiYieldsMessages
  cases api <;> infer_instance

/-- The (assetId, mimeType) pairs of all image parts of a conversation,
in document order. -/
def imagePartsOf (conversation : NormalizedConversation) :
    List (String × String) :=
  conversation.messages.flatMap fun m =>
    m.parts.filterMap fun p =>
      match p with
      | .image assetId _ _ mime => some (assetId, mime)
      | _ => none

/-- First-occurrence de-duplication by the first component, given an
initial set of already-seen keys. -/
def dedupByFst : List (String × String) → List String → List (String × String)
  | [], _ => []
  | (a, m) :: rest, seen =>
    if seen.contains a then dedupByFst rest seen
    else (a, m) :: dedupByFst rest (seen ++ [a])

/-- The record of a successful, non-throwing asset fetch. -/
def okOption : Except Unit (Option ImageRecord) → Option ImageRecord
  | .ok (some r) => some r
  | _ => none

/-- `n` successive `buildFileName` calls with one shared de-duplication
set: returns (names in call order, final set). -/
def buildFileNameSeq (env : JsEnv) (conversation : NormalizedConversation)
    (template : String) : Nat → List String × List String
  | 0 => ([], [])
  | n + 1 =>
    let prev := buildFileNameSeq env conversation template n
    let next := buildFileName env conversation template prev.2
    (prev.1 ++ [next.1], next.2)

/-- The names the collision-resolution contract predicts: the base name
first, then `base-2`, `base-3`, …. -/
def expectedNames (base : String) : Nat → List String
  | 0 => []
  | n + 1 => base :: (List.range n).map fun k => base ++ "-" ++ toString (k + 2)

/-- The discovered conversations a resumed run still has to attempt. -/
def pendingMetas (run : ExpEnv) : List ConvMeta :=
  run.metas.filter fun m => ¬ run.resumeCompletedIds.contains m.id

/-- Whether an `Except` result is a success. -/
def exceptOk {ε α : Type} : Except ε α → Bool
  | .ok _ => true
  | .error _ => false

/-- The export record one attempted conversation contributes (none on a
load failure). -/
def loadedRecord (run : ExpEnv) (m : ConvMeta) : Option ConvExportRecord :=
  match run.load m.id with
  | .ok conversation => some { conversation := conversation,
                               images := run.imagesOf conversation }
  | .error _ => none

/-- The failure record one attempted conversation contributes (none on
success). -/
def loadFailure (run : ExpEnv) (m : ConvMeta) : Option FailureRecord :=
  match run.load m.id with
  | .ok _ => none
  | .error e => some { id := m.id, title := jsOrStr m.title "Untitled Chat",
                       error := e }

/-- Number of conversation entries in a run's archive. -/
def archiveEntryCount (r : RunResult) : Option Nat :=
  r.archive.map fun a => a.indexEntries.length

/-- The last child of a mapping node, as the traversal reads it. -/
def lastChildOf (v : JVal) : JVal :=
  (asArray (getF v "children")).getLastD JVal.undef

/-- A mapping node of a linear chain: `id`, optional `parent`, a
`children` list with the single next id (or empty), and a `message`. -/
def mkChainNode (id : String) (parent : Option String) (child : Option String)
    (message : JVal) : JVal :=
  .obj
    ([("id", .str id)] ++
     (match parent with
      | some p => [("parent", JVal.str p)]
      | none => []) ++
     [("children", .arr (match child with
       | some c => [JVal.str c]
       | none => [])),
      ("message", message)])

/-- The fields of a linear-chain mapping built from (id, message) items:
each node's parent is the previous id and its only child the next id. -/
def chainFields : Option String → List (String × JVal) → List (String × JVal)
  | _, [] => []
  | parent, (id, msg) :: rest =>
    (id, mkChainNode id parent (rest.head?.map Prod.fst) msg) ::
      chainFields (some id) rest

/-- A linear-chain mapping (single path, no branches). -/
def chainMapping (items : List (String × JVal)) : JVal :=
  .obj (chainFields none items)

/-- One node visit of the walk: mark the id visited and emit the node's
message, if any (the part of the walk body before the recursion). -/
def walkVisit (env : JsEnv) (node : JVal) (st : WalkState) : WalkState :=
  let st1 : WalkState := { st with visited := st.visited ++ [getF node "id"] }
  match extractMessage env node with
  | some msg => { st1 with ordered := st1.ordered ++ [msg] }
  | none => st1

/-- No two consecutive hyphens (the shape `slugify`'s run-collapsing
guarantees). -/
def noTwoHyph : List Char → Bool
  | [] => true
  | [_] => true
  | a :: b :: rest => !(a = '-' && b = '-') && noTwoHyph (b :: rest)

/-- No occurrence of the character pair that opens a script tag: nowhere
a less-than sign immediately followed by the letter s.  Escaped user
content and the renderer's own template fragments keep this shape, so
the substring of a script tag cannot occur in them. -/
def noLtS : List Char → Bool
  | [] => true
  | [_] => true
  | a :: b :: rest => !(a = '<' && b = 's') && noLtS (b :: rest)

/-! ### Concrete fixtures -/

/-- A concrete browser environment for witnesses and counterexamples. -/
def envFixture : JsEnv :=
  { nowMs := 0,
    dateParse := fun _ => none,
    nfd := fun s => s,
    localYMD := fun _ => (1970, 0, 1),
    localeDateString := "1/1/1970",
    isoNowString := "1970-01-01T00:00:00.000Z" }

/-- An empty live page (no rendered messages). -/
def domEmptyFixture : DomSnapshot :=
  { messageEls := [], h1Text := none, docTitle := "" }

/-- A small concrete conversation. -/
def convFixture : NormalizedConversation :=
  { id := "conv-1", title := "Hello World", createTime := some 1708000000,
    updateTime := some 1708003600, model := some "gpt-4o",
    customGptName := none,
    messages :=
      [{ id := "m1", role := "user", createTime := none,
         parts := [.text "Write hello world in python."] },
       { id := "m2", role := "assistant", createTime := none,
         parts := [.code "python" "print(1)",
                   .image "file-service://file-xyz" .null .null "image/png"] }] }

/-- A persisted checkpoint mid-run. -/
def resumeFixture : ResumeState :=
  { schemaVersion := 1, exportId := "exp_1", scope := "full",
    formats := ["html", "markdown"], status := "in_progress", startedAt := 0,
    allIds := ["c1", "c2", "c3", "c4", "c5"], completedIds := ["c1", "c2", "c3"] }

/-- Worker storage holding that checkpoint. -/
def wsFixture : WorkerStorage :=
  { preferences := some { defaultFormats := ["html", "markdown"],
                          namingTemplate := "\x7bdate\x7d_\x7btitle\x7d" },
    resumeState := some resumeFixture }

/-- A loader that always succeeds with a one-message conversation. -/
def loadFixture (id : String) : Except String NormalizedConversation :=
  .ok
    { id := id, title := "T", createTime := none, updateTime := some 0,
      model := none, customGptName := none,
      messages := [{ id := id ++ "-m", role := "user", createTime := none,
                     parts := [.text "hi"] }] }

/-- Five discovered conversations. -/
def metasFixture : List ConvMeta :=
  [{ id := "c1", title := "One" }, { id := "c2", title := "Two" },
   { id := "c3", title := "Three" }, { id := "c4", title := "Four" },
   { id := "c5", title := "Five" }]

/-- A resumed batch run: ids c1–c3 are already checkpointed. -/
def runResumedFixture : ExpEnv :=
  { metas := metasFixture, resumeCompletedIds := ["c1", "c2", "c3"],
    load := loadFixture, imagesOf := fun _ => [], formats := ["json"],
    namingTemplate := "\x7bid\x7d" }

/-- The same batch run uninterrupted (no checkpoint). -/
def runFreshFixture : ExpEnv :=
  { metas := metasFixture, resumeCompletedIds := [],
    load := loadFixture, imagesOf := fun _ => [], formats := ["json"],
    namingTemplate := "\x7bid\x7d" }

/-- A branch node: its children array is [a, b]. -/
def branchNodeFixture : JVal :=
  .obj [("id", .str "n"),
        ("children", .arr [.str "a", .str "b"])]

/-- A mapping holding only the node stored under the id "b". -/
def branchMapFixture : JVal :=
  .obj [("b", .obj [("id", .str "b"), ("children", .arr [])])]

/-- A branching mapping: the root r has children [a, b]; nodes a and b
are leaves. -/
def branchFieldsFixture : List (String × JVal) :=
  [("r", .obj [("id", .str "r"),
               ("children", .arr [.str "a", .str "b"])]),
   ("a", .obj [("id", .str "a"), ("parent", .str "r"),
               ("children", .arr [])]),
   ("b", .obj [("id", .str "b"), ("parent", .str "r"),
               ("children", .arr [])])]

/-- A two-node linear chain: the first node carries a user message, the
second has a null message. -/
def chainItemsFixture : List (String × JVal) :=
  [("c1", .obj [("author", .obj [("role", .str "user")]),
                ("content", .obj [("content_type", .str "text"),
                                  ("parts", .arr [.str "hello"])]),
                ("id", .str "m1")]),
   ("c2", JVal.null)]

/-! ## Theorems -/

/-- Helper: a run that triggers the download finished normally. -/
theorem executeExport_download_done (env : JsEnv) (run : ExpEnv)
    (cancelAt : Option Nat) :
    (executeExport env run cancelAt).downloadTriggered = true →
    (executeExport env run cancelAt).outcome = .done := by
  unfold executeExport
  split
  · intro h; exact absurd h (by simp [cancelledResult])
  · split
    · intro h; exact absurd h (by simp [cancelledResult])
    · split
      · intro h; exact absurd h (by simp [cancelledResult])
      · split
        · intro h; exact absurd h (by simp [cancelledResult])
        · split
          · intro h; exact absurd h (by simp [cancelledResult])
          · split
            · intro h; exact absurd h (by simp)
            · intro _; rfl

/-- C9 (counterexample): with an active-but-cancelled (hence unfinished,
since `activeRun` is only nulled when the run's promise settles) run
present, a new RUN_EXPORT request is accepted (`ok: true`), not
rejected. -/
theorem runExport_counterexample :
    (CsState.mk (some (RunToken.mk true))).activeRun ≠ none ∧
    (handleRunExport (CsState.mk (some (RunToken.mk true)))).2 = true := by
  exact ⟨by decide, rfl⟩

/-- C9 (amended): a RUN_EXPORT request is rejected iff the active run
exists and has not been cancelled; on rejection the state is unchanged,
on acceptance a fresh un-cancelled token becomes the active run (so a
cancelled-but-still-unwinding run does not block a new one). -/
theorem runExport_mutual_exclusion (st : CsState) :
    ((handleRunExport st).2 = false ↔
      ∃ tok, st.activeRun = some tok ∧ tok.cancelled = false) ∧
    ((handleRunExport st).2 = false → (handleRunExport st).1 = st) ∧
    ((handleRunExport st).2 = true →
      (handleRunExport st).1 = { activeRun := some { cancelled := false } }) := by
  obtain ⟨ar⟩ := st
  cases ar with
  | none => simp [handleRunExport]
  | some tok =>
    obtain ⟨c⟩ := tok
    cases c <;> simp [handleRunExport]

/-- C9 (witness): the amended statement at a concrete state with an
uncancelled active run. -/
theorem runExport_mutual_exclusion_witness :
    ((handleRunExport ⟨some ⟨false⟩⟩).2 = false ↔
      ∃ tok, (⟨some ⟨false⟩⟩ : CsState).activeRun = some tok ∧
        tok.cancelled = false) ∧
    ((handleRunExport ⟨some ⟨false⟩⟩).2 = false →
      (handleRunExport ⟨some ⟨false⟩⟩).1 = ⟨some ⟨false⟩⟩) ∧
    ((handleRunExport ⟨some ⟨false⟩⟩).2 = true →
      (handleRunExport ⟨some ⟨false⟩⟩).1 =
        { activeRun := some { cancelled := false } }) :=
  runExport_mutual_exclusion ⟨some ⟨false⟩⟩

/-- C2 (counterexample): the CANCEL_EXPORT handler removes the persisted
`resumeState` key, so cancellation does not leave the checkpoint
unchanged. -/
theorem cancelExport_clears_checkpoint :
    wsFixture.resumeState ≠ none ∧
    (handleCancelExport wsFixture).resumeState = none :=
  ⟨by decide, rfl⟩

/-- C2 (amended): cancellation unwinds the run to a terminal state
without triggering the download (so the download-complete path that
clears state never runs); the content-script side — the STOP_EXPORT
handler and the cancelled run's "error" progress message — never touches
the persisted checkpoint; but the service worker's CANCEL_EXPORT handler
itself removes the `resumeState` key (leaving preferences intact), so a
cancelled export does not keep its checkpoint for resumption. -/
theorem cancellation_behaviour :
    (∀ w : WorkerStorage, (handleCancelExport w).resumeState = none ∧
      (handleCancelExport w).preferences = w.preferences) ∧
    (∀ st : CsState, st.activeRun ≠ none →
      handleStopExport st = { activeRun := some { cancelled := true } }) ∧
    (∀ w : WorkerStorage,
      handleExportProgress w
        { phase := "error", allIds := none, lastCompletedId := none } = w) ∧
    (∀ (env : JsEnv) (run : ExpEnv) (cancelAt : Option Nat),
      (executeExport env run cancelAt).outcome = .cancelledErr →
      (executeExport env run cancelAt).downloadTriggered = false) := by
  refine ⟨fun w => ⟨rfl, rfl⟩, ?_, ?_, ?_⟩
  · intro st h
    obtain ⟨ar⟩ := st
    cases ar with
    | none => simp at h
    | some tok => rfl
  · intro w
    obtain ⟨prefs, rs⟩ := w
    cases rs with
    | none => rfl
    | some st => simp [handleExportProgress]
  · intro env run cancelAt h
    by_contra hut
    have hd : (executeExport env run cancelAt).downloadTriggered = true := by
      revert hut
      cases (executeExport env run cancelAt).downloadTriggered <;> simp
    have := executeExport_download_done env run cancelAt hd
    rw [this] at h
    exact absurd h (by simp)

/-- C2 (witness): the amended statement exercised at concrete inputs. -/
theorem cancellation_behaviour_witness :
    handleStopExport ⟨some ⟨false⟩⟩ = { activeRun := some { cancelled := true } } ∧
    (handleCancelExport wsFixture).resumeState = none ∧
    (executeExport envFixture runFreshFixture (some 0)).downloadTriggered = false :=
  ⟨cancellation_behaviour.2.1 ⟨some ⟨false⟩⟩ (by decide),
   (cancellation_behaviour.1 wsFixture).1,
   cancellation_behaviour.2.2.2 envFixture runFreshFixture (some 0) rfl⟩

/-- C1 (counterexample): on an empty/malformed payload with no usable
DOM messages, `fetchAndNormalizeConversation` does not return a
conversation — it throws. -/
theorem fetchAndNormalize_throws_on_empty :
    fetchAndNormalizeConversation envFixture "x" (.ok .null) domEmptyFixture =
      .error "Unable to extract conversation id=x from API or DOM" := by
  rfl

/-- C1 (amended): `normalizeConversation`/`validateConversation` are
total by construction, and `fetchAndNormalizeConversation` returns a
conversation exactly when the (validated) API payload yields at least
one message or the DOM fallback does; when both yield zero messages it
throws instead of degrading to a default conversation. -/
theorem fetchAndNormalize_ok_iff (env : JsEnv) (id : String) (api : ApiResult)
    (dom : DomSnapshot) :
    (∃ c, fetchAndNormalizeConversation env id api dom = .ok c) ↔
      (apiYieldsMessages env api ∨
        (extractConversationFromDom env id dom).messages ≠ []) := by
  cases api with
  | failed =>
    simp only [fetchAndNormalizeConversation, apiYieldsMessages, gt_iff_lt,
      List.length_pos]
    by_cases hdom : (extractConversationFromDom env id dom).messages = []
    · simp [hdom]
    · simp [hdom]
  | ok raw =>
    simp only [fetchAndNormalizeConversation, apiYieldsMessages, gt_iff_lt,
      List.length_pos]
    by_cases hapi :
        (validateConversation env (normalizeConversation env raw)).messages = []
    · by_cases hdom : (extractConversationFromDom env id dom).messages = []
      · simp [hapi, hdom]
      · simp [hapi, hdom]
    · simp [hapi]

/-- C8 (counterexample): the JSON renderer's top-level key is
`custom_gpt`, not `custom_group`. -/
theorem renderJson_custom_group_absent :
    jTopKeys (renderJsonPayload convFixture) ≠
      ["id", "title", "create_time", "update_time", "model", "custom_group",
       "messages"] ∧
    strHasSub (renderJsonConversation convFixture) "\"custom_gpt\"" = true ∧
    strHasSub (renderJsonConversation convFixture) "\"custom_group\"" = false :=
  ⟨by decide, by decide, by decide⟩

/-- C8 (amended): the JSON renderer emits an object with exactly the
keys id, title, create_time, update_time, model, custom_gpt (not
custom_group), and messages; each message's `content` is its parts
flattened to one string — Text parts raw, Code parts a fenced block
annotated with the language, Image parts a bracketed placeholder naming
the assetId — joined with a blank-line separator; the whole output is
`JSON.stringify` with 2-space indentation. -/
theorem renderJson_shape :
    (∀ conv : NormalizedConversation,
      jTopKeys (renderJsonPayload conv) =
        ["id", "title", "create_time", "update_time", "model", "custom_gpt",
         "messages"]) ∧
    (∀ conv : NormalizedConversation,
      renderJsonConversation conv = jsonStringify 5 (renderJsonPayload conv) "") ∧
    (∀ conv : NormalizedConversation,
      match jField (renderJsonPayload conv) "messages" with
      | some (.jarr ms) =>
          ms.map (jField · "content") =
            conv.messages.map fun m =>
              some (JsonV.jstr (flattenPartsToText m.parts))
      | _ => False) ∧
    (∀ parts, flattenPartsToText parts =
      String.intercalate "\n\n" (parts.map partToText)) ∧
    partToText (.text "raw text") = "raw text" ∧
    partToText (.code "python" "print(1)") = "```python\nprint(1)\n```" ∧
    partToText (.image "asset-1" .null .null "image/png") = "[image: asset-1]" := by
  refine ⟨fun conv => rfl, fun conv => rfl, fun conv => ?_,
    fun parts => rfl, rfl, rfl, rfl⟩
  show (conv.messages.map _).map (jField · "content") = _
  rw [List.map_map]
  rfl

/-- Helper: every successfully fetched record carries the asset id it
was requested for (all branches of `fetchImageAsset` set `assetId` to
their input). -/
theorem fetchImageAsset_assetId (env : ImgEnv) (assetId mime : String)
    (r : ImageRecord) (h : fetchImageAsset env assetId mime = .ok (some r)) :
    r.assetId = assetId := by
  unfold fetchImageAsset at h
  split_ifs at h with h1 h2 h3
  · -- data: URI
    unfold decodeDataUriAsset at h
    rcases hp : dataUriParse assetId with _ | ⟨m1, attrs, payload⟩
    · rw [hp] at h; simp at h
    · rw [hp] at h
      simp only at h
      split_ifs at h
      · rcases ha : env.atobBytes payload with _ | bytes <;> rw [ha] at h <;>
          simp at h
        rw [← h]
      · rcases hd : env.decodeUriComponent payload with _ | s <;> rw [hd] at h <;>
          simp at h
        rw [← h]
  · -- blob: URL
    rcases hf : fetchImageFromUrl env assetId mime with e | fo
    · rw [hf] at h; simp at h
    · rw [hf] at h
      rcases fo with _ | fr
      · simp only at h
        unfold extractBlobImageFromDom at h
        rcases hb : env.domBlobImage assetId with _ | ⟨bytes, bt⟩ <;>
          rw [hb] at h <;> simp at h
        rw [← h]
      · simp only at h
        unfold fetchImageFromUrl at hf
        rcases hn : env.fetchUrl assetId with _ | _ | ⟨ct, body⟩ <;>
          rw [hn] at hf <;> simp at hf
        rcases body with be | bb
        · simp at hf
        · simp only at hf
          injection hf with hf
          injection hf with hf
          injection h with h
          injection h with h
          rw [← h, ← hf]
  · -- http(s) URL
    unfold fetchImageFromUrl at h
    rcases hn : env.fetchUrl assetId with _ | _ | ⟨ct, body⟩ <;>
      rw [hn] at h <;> simp at h
    rcases body with be | bb
    · simp at h
    · simp only at h
      injection h with h
      injection h with h
      rw [← h]
  · -- file-service asset pointer
    dsimp only at h
    rcases hn : env.fetchUrl ("https://files.oaiusercontent.com/" ++
        dropPrefixStr "file-service://" assetId) with _ | _ | ⟨ct, body⟩ <;>
      rw [hn] at h <;> simp at h
    rcases body with be | bb
    · simp at h
    · simp only at h
      injection h with h
      injection h with h
      rw [← h]

/-- Helper: image-part pairs of one part list. -/
def partPairs (parts : List ContentPart) : List (String × String) :=
  parts.filterMap fun p =>
    match p with
    | .image assetId _ _ mime => some (assetId, mime)
    | _ => none

/-- Helper: `okOption` on a thrown fetch. -/
theorem okOption_error (e : Unit) : okOption (.error e) = none := rfl

/-- Helper: `okOption` on a null fetch. -/
theorem okOption_none : okOption (.ok none) = none := rfl

/-- Helper: `okOption` on a successful fetch. -/
theorem okOption_some (r : ImageRecord) : okOption (.ok (some r)) = some r := rfl

/-- Helper: `dedupByFst` distributes over append. -/
theorem dedupByFst_append (xs ys : List (String × String)) (seen : List String) :
    dedupByFst (xs ++ ys) seen =
      dedupByFst xs seen ++
        dedupByFst ys (seen ++ (dedupByFst xs seen).map Prod.fst) := by
  induction xs generalizing seen with
  | nil => simp [dedupByFst]
  | cons p rest ih =>
    obtain ⟨a, m⟩ := p
    by_cases ha : a ∈ seen
    · simp [dedupByFst, ha, ih]
    · simp [dedupByFst, ha, ih, List.append_assoc]

/-- Helper: the part fold of `fetchConversationImages` equals
first-occurrence de-duplication followed by a per-asset fetch, with
failures and nulls filtered out. -/
theorem foldParts_spec (env : ImgEnv) (parts : List ContentPart)
    (imgs : List ImageRecord) (seen : List String) :
    parts.foldl (fetchImagesStep env) (imgs, seen) =
      (imgs ++ (dedupByFst (partPairs parts) seen).filterMap
        (fun p => okOption (fetchImageAsset env p.1 p.2)),
       seen ++ (dedupByFst (partPairs parts) seen).map Prod.fst) := by
  induction parts generalizing imgs seen with
  | nil => simp [partPairs, dedupByFst]
  | cons p rest ih =>
    match p with
    | .text t => simpa [partPairs, fetchImagesStep] using ih imgs seen
    | .code l t => simpa [partPairs, fetchImagesStep] using ih imgs seen
    | .unknown => simpa [partPairs, fetchImagesStep] using ih imgs seen
    | .image a w hgt m =>
      by_cases ha : a ∈ seen
      · simpa [partPairs, fetchImagesStep, dedupByFst, ha] using ih imgs seen
      · have hstep : fetchImagesStep env (imgs, seen) (.image a w hgt m) =
            match fetchImageAsset env a m with
            | .ok (some record) => (imgs ++ [record], seen ++ [a])
            | .ok none => (imgs, seen ++ [a])
            | .error _ => (imgs, seen ++ [a]) := by
          simp only [fetchImagesStep]
          rw [if_neg (by simpa using ha)]
        rcases hf : fetchImageAsset env a m with e | fo
        · rw [hf] at hstep
          simp only [List.foldl_cons, hstep, partPairs, List.filterMap_cons,
            dedupByFst, if_neg ha]
          have := ih imgs (seen ++ [a])
          simp only [partPairs] at this
          rw [this]
          simp [hf, ha, okOption_error, okOption_none, okOption_some,
            List.append_assoc]
        · rcases fo with _ | r
          · rw [hf] at hstep
            simp only [List.foldl_cons, hstep, partPairs, List.filterMap_cons,
              dedupByFst, if_neg ha]
            have := ih imgs (seen ++ [a])
            simp only [partPairs] at this
            rw [this]
            simp [hf, ha, okOption_error, okOption_none, okOption_some,
              List.append_assoc]
          · rw [hf] at hstep
            simp only [List.foldl_cons, hstep, partPairs, List.filterMap_cons,
              dedupByFst, if_neg ha]
            have := ih (imgs ++ [r]) (seen ++ [a])
            simp only [partPairs] at this
            rw [this]
            simp [hf, ha, okOption_error, okOption_none, okOption_some,
              List.append_assoc]

/-- Helper: the asset ids produced by `dedupByFst` are distinct and
avoid the initial seen set. -/
theorem dedupByFst_nodup (l : List (String × String)) (seen : List String) :
    ((dedupByFst l seen).map Prod.fst).Nodup ∧
      ∀ a ∈ (dedupByFst l seen).map Prod.fst, a ∉ seen := by
  induction l generalizing seen with
  | nil => simp [dedupByFst]
  | cons p rest ih =>
    obtain ⟨a, m⟩ := p
    by_cases ha : a ∈ seen
    · obtain ⟨h1, h2⟩ := ih seen
      exact ⟨by simpa [dedupByFst, ha] using h1,
        by simpa [dedupByFst, ha] using h2⟩
    · obtain ⟨h1, h2⟩ := ih (seen ++ [a])
      have hd : dedupByFst ((a, m) :: rest) seen =
          (a, m) :: dedupByFst rest (seen ++ [a]) := by
        simp [dedupByFst, ha]
      rw [hd]
      refine ⟨?_, ?_⟩
      · simp only [List.map_cons, List.nodup_cons]
        refine ⟨fun hmem => ?_, h1⟩
        have := h2 a hmem
        simp at this
      · intro b hb
        simp only [List.map_cons, List.mem_cons] at hb
        rcases hb with rfl | hb
        · exact ha
        · have := h2 b hb
          intro hbs
          exact this (by simp [hbs])

/-- Helper: records fetched from pairs with distinct asset ids have
distinct asset ids. -/
theorem filterMap_fetch_nodup (env : ImgEnv) (pairs : List (String × String))
    (hnd : (pairs.map Prod.fst).Nodup) :
    ((pairs.filterMap fun p => okOption (fetchImageAsset env p.1 p.2)).map
      ImageRecord.assetId).Nodup := by
  induction pairs with
  | nil => simp
  | cons p rest ih =>
    obtain ⟨a, m⟩ := p
    simp only [List.map_cons, List.nodup_cons] at hnd
    obtain ⟨hna, hnr⟩ := hnd
    rcases ho : okOption (fetchImageAsset env a m) with _ | r
    · simpa [List.filterMap_cons, ho] using ih hnr
    · have hra : r.assetId = a := by
        unfold okOption at ho
        rcases hf : fetchImageAsset env a m with e | fo
        · rw [hf] at ho; simp at ho
        · rcases fo with _ | r2
          · rw [hf] at ho; simp at ho
          · rw [hf] at ho
            simp only [Option.some.injEq] at ho
            subst ho
            exact fetchImageAsset_assetId env a m _ hf
      simp only [List.filterMap_cons, ho, List.map_cons, List.nodup_cons]
      refine ⟨fun hmem => ?_, ih hnr⟩
      simp only [List.mem_map] at hmem
      obtain ⟨r2, hr2, hr2eq⟩ := hmem
      obtain ⟨q, hq, hoq⟩ := List.mem_filterMap.mp hr2
      have : r2.assetId = q.1 := by
        unfold okOption at hoq
        rcases hf : fetchImageAsset env q.1 q.2 with e | fo
        · rw [hf] at hoq; simp at hoq
        · rcases fo with _ | r3
          · rw [hf] at hoq; simp at hoq
          · rw [hf] at hoq
            simp only [Option.some.injEq] at hoq
            subst hoq
            exact fetchImageAsset_assetId env q.1 q.2 _ hf
      apply hna
      rw [← hra, ← hr2eq, this]
      exact List.mem_map_of_mem Prod.fst hq

/-- C10: `fetchConversationImages` equals first-occurrence
de-duplication of the conversation's image parts followed by one fetch
per distinct assetId, where a fetch that returns null or throws is
omitted rather than failing the call; consequently the returned asset
ids are pairwise distinct. -/
theorem fetchConversationImages_spec (env : ImgEnv)
    (conversation : NormalizedConversation) :
    fetchConversationImages env conversation =
      (dedupByFst (imagePartsOf conversation) []).filterMap
        (fun p => okOption (fetchImageAsset env p.1 p.2)) ∧
    ((fetchConversationImages env conversation).map ImageRecord.assetId).Nodup := by
  have hmain : ∀ (msgs : List NormalizedMessage) (imgs : List ImageRecord)
      (seen : List String),
      msgs.foldl (fun acc msg => msg.parts.foldl (fetchImagesStep env) acc)
        (imgs, seen) =
        (imgs ++ (dedupByFst (msgs.flatMap fun m => partPairs m.parts)
            seen).filterMap (fun p => okOption (fetchImageAsset env p.1 p.2)),
         seen ++ (dedupByFst (msgs.flatMap fun m => partPairs m.parts)
            seen).map Prod.fst) := by
    intro msgs
    induction msgs with
    | nil => intro imgs seen; simp [dedupByFst]
    | cons msg rest ih =>
      intro imgs seen
      simp only [List.foldl_cons, foldParts_spec, List.flatMap_cons,
        dedupByFst_append, List.filterMap_append, List.map_append]
      rw [ih]
      simp [List.append_assoc]
  have heq : fetchConversationImages env conversation =
      (dedupByFst (imagePartsOf conversation) []).filterMap
        (fun p => okOption (fetchImageAsset env p.1 p.2)) := by
    unfold fetchConversationImages
    rw [hmain conversation.messages [] []]
    simp [imagePartsOf, partPairs]
  refine ⟨heq, ?_⟩
  rw [heq]
  exact filterMap_fetch_nodup env _ (dedupByFst_nodup (imagePartsOf conversation) []).1

/-- Helper: run-collapsing only outputs slug characters. -/
theorem collapseRuns_mem (b : Bool) (l : List Char) :
    ∀ c ∈ collapseRuns b l, isLowerAlnum c = true ∨ c = '-' := by
  induction l generalizing b with
  | nil => simp [collapseRuns]
  | cons d rest ih =>
    intro c hc
    by_cases hd : isLowerAlnum d
    · rw [show collapseRuns b (d :: rest) = d :: collapseRuns false rest by
        cases b <;> simp [collapseRuns, hd]] at hc
      rcases List.mem_cons.mp hc with rfl | hc
      · exact Or.inl hd
      · exact ih false c hc
    · cases b with
      | true =>
        rw [show collapseRuns true (d :: rest) = collapseRuns true rest by
          simp [collapseRuns, hd]] at hc
        exact ih true c hc
      | false =>
        rw [show collapseRuns false (d :: rest) = '-' :: collapseRuns true rest by
          simp [collapseRuns, hd]] at hc
        rcases List.mem_cons.mp hc with rfl | hc
        · exact Or.inr rfl
        · exact ih true c hc

/-- Helper: `collapseRuns` with a leading alphanumeric character. -/
theorem collapseRuns_cons_alnum (b : Bool) (d : Char) (rest : List Char)
    (hd : isLowerAlnum d = true) :
    collapseRuns b (d :: rest) = d :: collapseRuns false rest := by
  cases b <;> simp [collapseRuns, hd]

/-- Helper: run-collapsing never emits two consecutive hyphens, and
inside a run (flag true) the output never starts with a hyphen. -/
theorem collapseRuns_noTwo (l : List Char) :
    ∀ b : Bool, noTwoHyph (collapseRuns b l) = true ∧
      ∀ c, (collapseRuns true l).head? = some c → c ≠ '-' := by
  induction l with
  | nil => intro b; simp [collapseRuns, noTwoHyph]
  | cons d rest ih =>
    intro b
    by_cases hd : isLowerAlnum d
    · have hne : d ≠ '-' := by
        intro h
        rw [h] at hd
        exact absurd hd (by decide)
      refine ⟨?_, ?_⟩
      · rw [collapseRuns_cons_alnum b d rest hd]
        rcases hrest : collapseRuns false rest with _ | ⟨e, tail⟩
        · simp [noTwoHyph]
        · have h2 := (ih false).1
          rw [hrest] at h2
          simp only [noTwoHyph, Bool.and_eq_true, Bool.not_eq_true']
          refine ⟨?_, h2⟩
          by_cases he : e = '-'
          · subst he
            simp [hne]
          · simp [he]
      · intro c hc
        rw [collapseRuns_cons_alnum true d rest hd] at hc
        simp only [List.head?_cons, Option.some.injEq] at hc
        rw [← hc]
        exact hne
    · cases b with
      | true =>
        have h1 := (ih true).1
        have h2 := (ih true).2
        rw [show collapseRuns true (d :: rest) = collapseRuns true rest by
          simp [collapseRuns, hd]]
        exact ⟨h1, h2⟩
      | false =>
        rw [show collapseRuns false (d :: rest) = '-' :: collapseRuns true rest by
          simp [collapseRuns, hd]]
        refine ⟨?_, ?_⟩
        · rcases hrest : collapseRuns true rest with _ | ⟨e, tail⟩
          · simp [noTwoHyph]
          · have h1 := (ih true).1
            have h2 := (ih true).2 e (by rw [hrest]; rfl)
            rw [hrest] at h1
            simp only [noTwoHyph, Bool.and_eq_true, Bool.not_eq_true']
            exact ⟨by simp [h2], h1⟩
        · intro c hc
          rw [show collapseRuns true (d :: rest) = collapseRuns true rest by
            simp [collapseRuns, hd]] at hc
          exact (ih true).2 c hc

/-- Helper: `noTwoHyph` holds for any prefix. -/
theorem noTwoHyph_append_left (l₁ l₂ : List Char)
    (h : noTwoHyph (l₁ ++ l₂) = true) : noTwoHyph l₁ = true := by
  induction l₁ with
  | nil => simp [noTwoHyph]
  | cons a rest ih =>
    cases rest with
    | nil => simp [noTwoHyph]
    | cons b tail =>
      simp only [List.cons_append, noTwoHyph, Bool.and_eq_true] at h ⊢
      exact ⟨h.1, ih h.2⟩

/-- Helper: `noTwoHyph` holds for any suffix. -/
theorem noTwoHyph_append_right (l₁ l₂ : List Char)
    (h : noTwoHyph (l₁ ++ l₂) = true) : noTwoHyph l₂ = true := by
  induction l₁ with
  | nil => simpa using h
  | cons a rest ih =>
    apply ih
    rcases hr : rest ++ l₂ with _ | ⟨b, tail⟩
    · rfl
    · have h2 : noTwoHyph (a :: b :: tail) = true := by
        rw [← hr]
        simpa [List.cons_append] using h
      simp only [noTwoHyph, Bool.and_eq_true] at h2
      exact h2.2

/-- Helper: the head surviving `dropWhile` fails the predicate. -/
theorem dropWhile_head_false {p : Char → Bool} {l : List Char} {c : Char}
    (h : (l.dropWhile p).head? = some c) : p c = false := by
  induction l with
  | nil => simp [List.dropWhile] at h
  | cons a rest ih =>
    by_cases ha : p a
    · rw [List.dropWhile_cons_of_pos ha] at h
      exact ih h
    · rw [List.dropWhile_cons_of_neg ha] at h
      simp only [List.head?_cons, Option.some.injEq] at h
      rw [← h]
      simpa using ha

/-- Helper: `trimTrailingHyphens` yields a prefix of its input. -/
theorem trimTrailingHyphens_isPrefix (l : List Char) :
    trimTrailingHyphens l <+: l := by
  unfold trimTrailingHyphens
  obtain ⟨t, ht⟩ := List.dropWhile_suffix (l := l.reverse) (p := (· = '-'))
  refine ⟨t.reverse, ?_⟩
  have := congrArg List.reverse ht
  simpa using this

/-- Helper: a nonempty prefix has the same head. -/
theorem isPrefix_head? {l p : List Char} (h : p <+: l) (hne : p ≠ []) :
    p.head? = l.head? := by
  obtain ⟨t, rfl⟩ := h
  cases p with
  | nil => exact absurd rfl hne
  | cons a rest => simp

/-- Helper: the last character surviving `trimTrailingHyphens` is not a
hyphen. -/
theorem trimTrailingHyphens_getLast {l : List Char} {c : Char}
    (h : (trimTrailingHyphens l).getLast? = some c) : c ≠ '-' := by
  unfold trimTrailingHyphens at h
  rw [List.getLast?_reverse] at h
  have := dropWhile_head_false h
  simpa using this

/-- Helper: `dropWhile` is the identity when the head fails the
predicate. -/
theorem dropWhile_eq_self {p : Char → Bool} {l : List Char}
    (h : ∀ c, l.head? = some c → p c = false) : l.dropWhile p = l := by
  cases l with
  | nil => rfl
  | cons a rest =>
    rw [List.dropWhile_cons_of_neg]
    simp [h a rfl]

/-- Helper: `trimTrailingHyphens` is the identity when the last
character is not a hyphen. -/
theorem trimTrailingHyphens_eq_self {l : List Char}
    (h : ∀ c, l.getLast? = some c → c ≠ '-') : trimTrailingHyphens l = l := by
  unfold trimTrailingHyphens
  rw [dropWhile_eq_self, List.reverse_reverse]
  intro c hc
  rw [List.head?_reverse] at hc
  simpa using h c hc

/-- Helper: slug characters are fixed by `Char.toLower`. -/
theorem toLower_fixes_slugChar {c : Char}
    (h : isLowerAlnum c = true ∨ c = '-') : Char.toLower c = c := by
  rcases h with h | rfl
  · unfold isLowerAlnum at h
    simp only [decide_eq_true_eq] at h
    unfold Char.toLower
    rw [if_neg]
    omega
  · decide

/-- Helper: slug characters are not combining marks. -/
theorem slugChar_not_combining {c : Char}
    (h : isLowerAlnum c = true ∨ c = '-') : isCombiningMark c = false := by
  rcases h with h | rfl
  · unfold isLowerAlnum at h
    simp only [decide_eq_true_eq] at h
    unfold isCombiningMark
    simp only [decide_eq_false_iff_not, not_and]
    omega
  · decide

/-- Helper: run-collapsing fixes a string that already has the slug
shape (slug characters, no double hyphen, no trailing hyphen). -/
theorem collapseRuns_fix (l : List Char)
    (hchar : ∀ c ∈ l, isLowerAlnum c = true ∨ c = '-')
    (htwo : noTwoHyph l = true)
    (hlast : ∀ c, l.getLast? = some c → c ≠ '-') :
    collapseRuns false l = l := by
  induction l with
  | nil => rfl
  | cons d rest ih =>
    by_cases hd : isLowerAlnum d
    · rw [collapseRuns_cons_alnum false d rest hd]
      congr 1
      apply ih
      · intro c hc; exact hchar c (List.mem_cons_of_mem d hc)
      · exact noTwoHyph_append_right [d] rest htwo
      · intro c hc
        apply hlast
        cases rest with
        | nil => simp at hc
        | cons e tail => rw [List.getLast?_cons_cons]; exact hc
    · have hdh : d = '-' := by
        rcases hchar d (List.mem_cons_self d rest) with h | h
        · exact absurd h hd
        · exact h
      subst hdh
      rw [show collapseRuns false ('-' :: rest) = '-' :: collapseRuns true rest by
        simp [collapseRuns, show isLowerAlnum '-' = false from by decide]]
      cases rest with
      | nil =>
        exact absurd (hlast '-' rfl) (by simp)
      | cons e tail =>
        have he : isLowerAlnum e = true := by
          have hee := hchar e (by simp)
          rcases hee with h | h
          · exact h
          · subst h
            simp [noTwoHyph] at htwo
        rw [collapseRuns_cons_alnum true e tail he]
        have := ih (fun c hc => hchar c (List.mem_cons_of_mem '-' hc))
          (noTwoHyph_append_right ['-'] (e :: tail) htwo)
          (fun c hc => hlast c (by rw [List.getLast?_cons_cons]; exact hc))
        rw [collapseRuns_cons_alnum false e tail he] at this
        rw [this]

/-- Helper: the tail of `slugify` as one function on character lists
(collapse, trim, clip, re-trim). -/
def slugCore (raw : List Char) : List Char :=
  trimTrailingHyphens ((trimHyphens (collapseRuns false raw)).take 80)

/-- Helper: shape of the slug pipeline output, for any input list:
slug characters only, no double hyphen, no leading or trailing hyphen,
length at most 80. -/
theorem slugCore_shape (raw : List Char) :
    (∀ c ∈ slugCore raw, isLowerAlnum c = true ∨ c = '-') ∧
    noTwoHyph (slugCore raw) = true ∧
    (∀ c, (slugCore raw).head? = some c → c ≠ '-') ∧
    (∀ c, (slugCore raw).getLast? = some c → c ≠ '-') ∧
    (slugCore raw).length ≤ 80 := by
  obtain ⟨t1, ht1⟩ :=
    List.dropWhile_suffix (l := collapseRuns false raw) (p := (· = '-'))
  have hTH : trimHyphens (collapseRuns false raw) =
      trimTrailingHyphens ((collapseRuns false raw).dropWhile (· = '-')) := rfl
  have hFD : slugCore raw <+: (collapseRuns false raw).dropWhile (· = '-') := by
    have p1 : slugCore raw <+: (trimHyphens (collapseRuns false raw)).take 80 :=
      trimTrailingHyphens_isPrefix _
    have p2 : (trimHyphens (collapseRuns false raw)).take 80 <+:
        trimHyphens (collapseRuns false raw) := List.take_prefix _ _
    have p3 : trimHyphens (collapseRuns false raw) <+:
        (collapseRuns false raw).dropWhile (· = '-') := by
      rw [hTH]
      exact trimTrailingHyphens_isPrefix _
    exact (p1.trans p2).trans p3
  refine ⟨?_, ?_, ?_, ?_, ?_⟩
  · intro c hc
    apply collapseRuns_mem false raw
    have h1 : c ∈ (collapseRuns false raw).dropWhile (· = '-') :=
      hFD.subset hc
    exact (List.dropWhile_sublist (· = '-')).subset h1
  · have h0 : noTwoHyph (collapseRuns false raw) = true :=
      (collapseRuns_noTwo raw false).1
    have h1 : noTwoHyph ((collapseRuns false raw).dropWhile (· = '-')) = true := by
      apply noTwoHyph_append_right t1
      rw [ht1]
      exact h0
    obtain ⟨t5, ht5⟩ := hFD
    apply noTwoHyph_append_left (slugCore raw) t5
    rw [ht5]
    exact h1
  · intro c hc
    have hne : slugCore raw ≠ [] := by
      intro h
      rw [h] at hc
      simp at hc
    have h1 : (slugCore raw).head? =
        ((collapseRuns false raw).dropWhile (· = '-')).head? :=
      isPrefix_head? hFD hne
    have h2 := dropWhile_head_false (p := (· = '-')) (l := collapseRuns false raw)
      (c := c) (by rw [← h1]; exact hc)
    simpa using h2
  · intro c hc
    exact trimTrailingHyphens_getLast hc
  · calc (slugCore raw).length ≤
        ((trimHyphens (collapseRuns false raw)).take 80).length :=
          (trimTrailingHyphens_isPrefix _).length_le
      _ ≤ 80 := List.length_take_le _ _

/-- Helper: a slug string as produced by `slugify`, reduced to
`slugCore`. -/
theorem slugify_eq_slugCore (env : JsEnv) (x : String) :
    (slugify env x).toList = slugCore
      ((env.nfd (String.mk (x.toList.map Char.toLower))).toList.filter
        (fun c => ¬ isCombiningMark c)) := rfl

/-- Helper: shape of every `slugify` output. -/
theorem slugify_shape (env : JsEnv) (x : String) :
    (∀ c ∈ (slugify env x).toList, isLowerAlnum c = true ∨ c = '-') ∧
    noTwoHyph (slugify env x).toList = true ∧
    (∀ c, (slugify env x).toList.head? = some c → c ≠ '-') ∧
    (∀ c, (slugify env x).toList.getLast? = some c → c ≠ '-') ∧
    (slugify env x).toList.length ≤ 80 := by
  rw [slugify_eq_slugCore]
  exact slugCore_shape _

/-- C5: `slugify` is idempotent, its output has length at most 80,
contains only lowercase alphanumerics and hyphens, and has no leading or
trailing hyphen.  The browser's `normalize("NFD")` is an environment
service; the only fact used about it is that it fixes strings that are
already plain slugs (NFD is the identity on ASCII). -/
theorem slugify_contract (env : JsEnv) (x : String)
    (hnfd : ∀ s : String,
      (∀ c ∈ s.toList, isLowerAlnum c = true ∨ c = '-') → env.nfd s = s) :
    slugify env (slugify env x) = slugify env x ∧
    (slugify env x).length ≤ 80 ∧
    (∀ c ∈ (slugify env x).toList, isLowerAlnum c = true ∨ c = '-') ∧
    (∀ c, (slugify env x).toList.head? = some c → c ≠ '-') ∧
    (∀ c, (slugify env x).toList.getLast? = some c → c ≠ '-') := by
  obtain ⟨hmem, htwo, hhead, hlast, hlen⟩ := slugify_shape env x
  refine ⟨?_, hlen, hmem, hhead, hlast⟩
  -- idempotence
  set S := slugify env x with hS
  have hmk : ∀ s : String, String.mk s.toList = s := fun ⟨l⟩ => rfl
  have hlow : S.toList.map Char.toLower = S.toList := by
    have heq : S.toList.map Char.toLower = S.toList.map id :=
      List.map_congr_left fun c hc => toLower_fixes_slugChar (hmem c hc)
    rw [heq, List.map_id]
  have e1 : String.mk (S.toList.map Char.toLower) = S := by rw [hlow]; exact hmk S
  have e2 : env.nfd S = S := hnfd S hmem
  have e3 : S.toList.filter (fun c => ¬ isCombiningMark c) = S.toList := by
    rw [List.filter_eq_self]
    intro c hc
    simp [slugChar_not_combining (hmem c hc)]
  have e4 : collapseRuns false S.toList = S.toList :=
    collapseRuns_fix S.toList hmem htwo hlast
  have e5 : trimHyphens S.toList = S.toList := by
    have h0 : trimHyphens S.toList =
        trimTrailingHyphens (S.toList.dropWhile (· = '-')) := rfl
    rw [h0, dropWhile_eq_self, trimTrailingHyphens_eq_self hlast]
    intro c hc
    simp [hhead c hc]
  have e6 : S.toList.take 80 = S.toList := List.take_of_length_le hlen
  have hcore : slugCore S.toList = S.toList := by
    unfold slugCore
    rw [e4, e5, e6, trimTrailingHyphens_eq_self hlast]
  have hred : (slugify env S).toList = slugCore
      ((env.nfd (String.mk (S.toList.map Char.toLower))).toList.filter
        (fun c => ¬ isCombiningMark c)) := slugify_eq_slugCore env S
  have : (slugify env S).toList = S.toList := by
    rw [hred, e1, e2, e3, hcore]
  calc slugify env S = String.mk (slugify env S).toList := (hmk _).symm
    _ = String.mk S.toList := by rw [this]
    _ = S := hmk S

/-- C5 (witness): the contract at a concrete environment (identity NFD)
and input. -/
theorem slugify_contract_witness :
    slugify envFixture (slugify envFixture "Hello / World") =
      slugify envFixture "Hello / World" ∧
    (slugify envFixture "Hello / World").length ≤ 80 ∧
    (∀ c ∈ (slugify envFixture "Hello / World").toList,
      isLowerAlnum c = true ∨ c = '-') ∧
    (∀ c, (slugify envFixture "Hello / World").toList.head? = some c →
      c ≠ '-') ∧
    (∀ c, (slugify envFixture "Hello / World").toList.getLast? = some c →
      c ≠ '-') :=
  slugify_contract envFixture "Hello / World" (fun _ _ => rfl)

/-- Helper: `Nat.toDigitsCore` emits onto the accumulator by appending. -/
theorem toDigitsCore_append (f : Nat) :
    ∀ (n : Nat) (acc : List Char),
      Nat.toDigitsCore 10 f n acc = Nat.toDigitsCore 10 f n [] ++ acc := by
  induction f with
  | zero => intro n acc; simp [Nat.toDigitsCore]
  | succ f ih =>
    intro n acc
    simp only [Nat.toDigitsCore]
    by_cases h : n / 10 = 0
    · simp [h]
    · simp only [h, if_neg, not_false_iff, ite_false]
      rw [ih (n / 10) (Nat.digitChar (n % 10) :: acc),
        ih (n / 10) [Nat.digitChar (n % 10)]]
      simp

/-- Helper: enough fuel makes `Nat.toDigitsCore` fuel-independent. -/
theorem toDigitsCore_fuel :
    ∀ (n f g : Nat), n < f → n < g →
      Nat.toDigitsCore 10 f n [] = Nat.toDigitsCore 10 g n [] := by
  intro n
  induction n using Nat.strong_induction_on with
  | _ n ih =>
    intro f g hf hg
    match f, g with
    | f + 1, g + 1 =>
      simp only [Nat.toDigitsCore]
      by_cases h : n / 10 = 0
      · simp [h]
      · simp only [h, if_neg, not_false_iff, ite_false]
        rw [toDigitsCore_append f, toDigitsCore_append g]
        have hd : n / 10 < n := Nat.div_lt_self (by omega) (by omega)
        rw [ih (n / 10) hd f g (by omega) (by omega)]

/-- Helper: with positive fuel the digit list is nonempty. -/
theorem toDigitsCore_ne_nil (f n : Nat) (hf : 0 < f) :
    Nat.toDigitsCore 10 f n [] ≠ [] := by
  match f with
  | f + 1 =>
    simp only [Nat.toDigitsCore]
    by_cases h : n / 10 = 0
    · simp [h]
    · simp only [h, if_neg, not_false_iff, ite_false]
      rw [toDigitsCore_append f]
      simp

/-- Helper: peeling the last decimal digit off `Nat.toDigitsCore`. -/
theorem toDigitsCore_decomp (f n : Nat) (hf : n < f) (h : n / 10 ≠ 0) :
    Nat.toDigitsCore 10 f n [] =
      Nat.toDigitsCore 10 (n / 10 + 1) (n / 10) [] ++
        [Nat.digitChar (n % 10)] := by
  match f with
  | f + 1 =>
    have h1 : Nat.toDigitsCore 10 (f + 1) n [] =
        Nat.toDigitsCore 10 f (n / 10) [Nat.digitChar (n % 10)] := by
      simp [Nat.toDigitsCore, h]
    rw [h1, toDigitsCore_append f]
    congr 1
    have hd : n / 10 < n := Nat.div_lt_self (by omega) (by omega)
    exact toDigitsCore_fuel (n / 10) f (n / 10 + 1) (by omega) (by omega)

/-- Helper: decimal digit characters are distinct. -/
theorem digitChar_inj :
    ∀ a < 10, ∀ b < 10, Nat.digitChar a = Nat.digitChar b → a = b := by
  decide

/-- Helper: `Nat.toDigits 10` is injective. -/
theorem toDigits_inj :
    ∀ n m : Nat, Nat.toDigits 10 n = Nat.toDigits 10 m → n = m := by
  intro n
  induction n using Nat.strong_induction_on with
  | _ n ih =>
    intro m h
    unfold Nat.toDigits at h
    by_cases hn : n / 10 = 0 <;> by_cases hm : m / 10 = 0
    · have e1 : Nat.toDigitsCore 10 (n + 1) n [] = [Nat.digitChar (n % 10)] := by
        simp [Nat.toDigitsCore, hn]
      have e2 : Nat.toDigitsCore 10 (m + 1) m [] = [Nat.digitChar (m % 10)] := by
        simp [Nat.toDigitsCore, hm]
      rw [e1, e2] at h
      have hd := digitChar_inj (n % 10) (Nat.mod_lt n (by omega))
        (m % 10) (Nat.mod_lt m (by omega)) (by injection h)
      omega
    · exfalso
      have e1 : Nat.toDigitsCore 10 (n + 1) n [] = [Nat.digitChar (n % 10)] := by
        simp [Nat.toDigitsCore, hn]
      rw [e1, toDigitsCore_decomp (m + 1) m (by omega) hm] at h
      have hlen := congrArg List.length h
      have hne := toDigitsCore_ne_nil (m / 10 + 1) (m / 10) (by omega)
      simp only [List.length_append, List.length_cons, List.length_nil] at hlen
      cases hq : Nat.toDigitsCore 10 (m / 10 + 1) (m / 10) [] with
      | nil => exact hne hq
      | cons c cs => rw [hq] at hlen; simp at hlen
    · exfalso
      have e2 : Nat.toDigitsCore 10 (m + 1) m [] = [Nat.digitChar (m % 10)] := by
        simp [Nat.toDigitsCore, hm]
      rw [e2, toDigitsCore_decomp (n + 1) n (by omega) hn] at h
      have hlen := congrArg List.length h
      have hne := toDigitsCore_ne_nil (n / 10 + 1) (n / 10) (by omega)
      simp only [List.length_append, List.length_cons, List.length_nil] at hlen
      cases hq : Nat.toDigitsCore 10 (n / 10 + 1) (n / 10) [] with
      | nil => exact hne hq
      | cons c cs => rw [hq] at hlen; simp at hlen
    · rw [toDigitsCore_decomp (n + 1) n (by omega) hn,
        toDigitsCore_decomp (m + 1) m (by omega) hm] at h
      have hrev := congrArg List.reverse h
      simp only [List.reverse_append, List.reverse_cons, List.reverse_nil,
        List.nil_append, List.singleton_append] at hrev
      have hdigit : Nat.digitChar (n % 10) = Nat.digitChar (m % 10) := by
        injection hrev
      have htail : (Nat.toDigitsCore 10 (n / 10 + 1) (n / 10) []).reverse =
          (Nat.toDigitsCore 10 (m / 10 + 1) (m / 10) []).reverse := by
        injection hrev
      have hmod := digitChar_inj (n % 10) (Nat.mod_lt n (by omega))
        (m % 10) (Nat.mod_lt m (by omega)) hdigit
      have hdiveq : n / 10 = m / 10 := by
        have hd : n / 10 < n := Nat.div_lt_self (by omega) (by omega)
        apply ih (n / 10) hd (m / 10)
        unfold Nat.toDigits
        exact List.reverse_injective htail
      omega

/-- Helper: `toString` on naturals is injective. -/
theorem natToString_inj (n m : Nat) (h : toString n = toString m) : n = m := by
  have h2 : Nat.repr n = Nat.repr m := h
  unfold Nat.repr at h2
  apply toDigits_inj
  have := congrArg String.data h2
  simpa [List.asString] using this

/-- Helper: rebuilding a string from its characters is the identity. -/
theorem string_mk_data : ∀ s : String, String.mk s.data = s :=
  fun ⟨_⟩ => rfl

/-- Helper: appending a distinct suffix keeps names distinct. -/
theorem suffixName_inj (base : String) (i j : Nat)
    (h : base ++ "-" ++ toString i = base ++ "-" ++ toString j) : i = j := by
  apply natToString_inj
  have hd := congrArg String.data h
  simp only [String.data_append] at hd
  have h3 : (toString i : String).data = (toString j : String).data :=
    List.append_cancel_left hd
  rw [← string_mk_data (toString i), ← string_mk_data (toString j), h3]

/-- Helper: the base name differs from every suffixed name. -/
theorem base_ne_suffix (base : String) (j : Nat) :
    base ≠ base ++ "-" ++ toString j := by
  intro h
  have hd := congrArg (fun s : String => s.data.length) h
  simp only [String.data_append, List.length_append] at hd
  have hne : (toString j : String).data ≠ [] := by
    have h1 : (toString j : String) = (Nat.toDigits 10 j).asString := rfl
    rw [h1]
    simp only [List.asString]
    exact toDigitsCore_ne_nil (j + 1) j (by omega)
  have : 0 < (toString j : String).data.length := List.length_pos.mpr hne
  have hdash : ("-" : String).data.length = 1 := rfl
  omega

/-- Helper: the collision loop returns the first free suffixed name. -/
theorem resolveCollision_spec (base : String) (used : List String) :
    ∀ (m s fuel : Nat),
      (∀ t, s ≤ t → t < s + m → (base ++ "-" ++ toString t) ∈ used) →
      (base ++ "-" ++ toString (s + m)) ∉ used → m < fuel →
      resolveCollision base used s fuel = base ++ "-" ++ toString (s + m) := by
  intro m
  induction m with
  | zero =>
    intro s fuel h1 h2 hf
    match fuel with
    | fuel + 1 =>
      have h2' : (base ++ "-" ++ toString s) ∉ used := by simpa using h2
      unfold resolveCollision
      rw [if_neg (by simpa using h2')]
      simp
  | succ m ih =>
    intro s fuel h1 h2 hf
    match fuel with
    | fuel + 1 =>
      unfold resolveCollision
      rw [if_pos (by simpa using h1 s (le_refl s) (by omega))]
      have := ih (s + 1) fuel
        (fun t ht1 ht2 => h1 t (by omega) (by omega))
        (by rw [show s + 1 + m = s + (m + 1) from by omega]; exact h2)
        (by omega)
      rw [this]
      congr 2
      omega

/-- Helper: `expectedNames` grows by one suffixed name at a time. -/
theorem expectedNames_snoc (base : String) (k : Nat) :
    expectedNames base (k + 2) =
      expectedNames base (k + 1) ++ [base ++ "-" ++ toString (k + 2)] := by
  simp only [expectedNames, List.range_succ, List.map_append, List.map_cons,
    List.map_nil]
  simp

/-- Helper: every element of the suffixed tail of `expectedNames`. -/
theorem expectedNames_mem_suffix (base : String) (n t : Nat)
    (h2 : 2 ≤ t) (hlt : t < n + 2) :
    (base ++ "-" ++ toString t) ∈ expectedNames base (n + 1) := by
  have hk : t - 2 < n := by omega
  have ht : t - 2 + 2 = t := by omega
  simp only [expectedNames, List.mem_cons, List.mem_map, List.mem_range]
  right
  refine ⟨t - 2, hk, ?_⟩
  rw [ht]

/-- Helper: the next suffixed name is not among the first `n + 1`. -/
theorem expectedNames_not_mem (base : String) (n : Nat) :
    (base ++ "-" ++ toString (n + 2)) ∉ expectedNames base (n + 1) := by
  simp only [expectedNames, List.mem_cons, List.mem_map, List.mem_range]
  rintro (h | ⟨k, hk, hkeq⟩)
  · exact base_ne_suffix base (n + 2) h.symm
  · have := suffixName_inj base (k + 2) (n + 2) hkeq
    omega

/-- Helper: the names the contract predicts are pairwise distinct. -/
theorem expectedNames_nodup (base : String) (n : Nat) :
    (expectedNames base n).Nodup := by
  match n with
  | 0 => simp [expectedNames]
  | n + 1 =>
    simp only [expectedNames, List.nodup_cons]
    constructor
    · intro hmem
      simp only [List.mem_map, List.mem_range] at hmem
      obtain ⟨k, hk, hkeq⟩ := hmem
      exact base_ne_suffix base (k + 2) hkeq.symm
    · refine List.Nodup.map_on ?_ (List.nodup_range n)
      intro i hi j hj hij
      have := suffixName_inj base (i + 2) (j + 2) hij
      omega

/-- Helper: `buildFileName` with its let-bindings resolved. -/
theorem buildFileName_eq (env : JsEnv)
    (conversation : NormalizedConversation) (template : String)
    (used : List String) :
    buildFileName env conversation template used =
      ((if used.contains (fileBase env conversation template) then
          resolveCollision (fileBase env conversation template) used 2
            (used.length + 1)
        else fileBase env conversation template),
       used ++ [(if used.contains (fileBase env conversation template) then
          resolveCollision (fileBase env conversation template) used 2
            (used.length + 1)
        else fileBase env conversation template)]) := rfl

/-- Helper: the call sequence produces exactly the predicted names, and
the shared de-duplication set always equals the names handed out so far. -/
theorem buildFileNameSeq_spec (env : JsEnv)
    (conversation : NormalizedConversation) (template : String) :
    ∀ n : Nat,
    buildFileNameSeq env conversation template n =
      (expectedNames (fileBase env conversation template) n,
       expectedNames (fileBase env conversation template) n) := by
  intro n
  induction n with
  | zero => rfl
  | succ n ih =>
    have hstep : buildFileNameSeq env conversation template (n + 1) =
        ((buildFileNameSeq env conversation template n).1 ++
          [(buildFileName env conversation template
            (buildFileNameSeq env conversation template n).2).1],
         (buildFileName env conversation template
            (buildFileNameSeq env conversation template n).2).2) := rfl
    rw [hstep, ih, buildFileName_eq]
    simp only
    match n with
    | 0 =>
      rw [if_neg (by simp [expectedNames])]
      simp [expectedNames]
    | k + 1 =>
      rw [if_pos (by simp [expectedNames])]
      rw [resolveCollision_spec (fileBase env conversation template)
        (expectedNames (fileBase env conversation template) (k + 1)) k 2
        ((expectedNames (fileBase env conversation template) (k + 1)).length + 1)
        (fun t ht1 ht2 =>
          expectedNames_mem_suffix (fileBase env conversation template) k t ht1
            (by omega))
        (by rw [show 2 + k = k + 2 from by omega]
            exact expectedNames_not_mem (fileBase env conversation template) k)
        (by simp [expectedNames]; omega)]
      rw [show 2 + k = k + 2 from by omega]
      rw [← expectedNames_snoc]

/-- C6: for N `buildFileName` calls with identical conversation and
template sharing one de-duplication set, the returned names are the base
name first and `base-k` for the k-th call (k ≥ 2), all pairwise
distinct. -/
theorem buildFileName_collision_free (env : JsEnv)
    (conversation : NormalizedConversation) (template : String) (n : Nat) :
    (buildFileNameSeq env conversation template n).1 =
      expectedNames (fileBase env conversation template) n ∧
    ((buildFileNameSeq env conversation template n).1).Nodup ∧
    (0 < n → ((buildFileNameSeq env conversation template n).1).head? =
      some (fileBase env conversation template)) ∧
    (∀ k, 1 ≤ k → k < n →
      ((buildFileNameSeq env conversation template n).1)[k]? =
        some (fileBase env conversation template ++ "-" ++ toString (k + 1))) := by
  have hseq := buildFileNameSeq_spec env conversation template n
  have h1 : (buildFileNameSeq env conversation template n).1 =
      expectedNames (fileBase env conversation template) n := by rw [hseq]
  refine ⟨h1, ?_, ?_, ?_⟩
  · rw [h1]; exact expectedNames_nodup _ n
  · intro hn
    rw [h1]
    match n, hn with
    | n + 1, _ => rfl
  · intro k hk1 hkn
    rw [h1]
    match n, hkn with
    | n + 1, _ =>
      simp only [expectedNames]
      match k, hk1 with
      | k + 1, _ =>
        rw [List.getElem?_cons_succ, List.getElem?_map,
          List.getElem?_range (by omega)]
        have harith : k + 1 + 1 = k + 2 := by omega
        rw [harith]
        rfl

/-- C6 (witness): the sequence contract at a concrete conversation,
template and length, with the hypotheses discharged at k = 2, n = 4. -/
theorem buildFileName_collision_free_witness :
    (buildFileNameSeq envFixture convFixture "\x7bdate\x7d_\x7btitle\x7d" 4).1 =
      expectedNames (fileBase envFixture convFixture "\x7bdate\x7d_\x7btitle\x7d") 4 ∧
    ((buildFileNameSeq envFixture convFixture "\x7bdate\x7d_\x7btitle\x7d" 4).1)[2]? =
      some (fileBase envFixture convFixture "\x7bdate\x7d_\x7btitle\x7d" ++ "-" ++
        toString 3) := by
  have h := buildFileName_collision_free envFixture convFixture
    "\x7bdate\x7d_\x7btitle\x7d" 4
  exact ⟨h.1, h.2.2.2 2 (by omega) (by omega)⟩

/-- Helper: the never-set cancellation flag. -/
theorem cancelFired_none (k : Nat) : cancelFired none k = false := rfl

/-- Helper: the packager emits exactly one index entry per record. -/
theorem packageZip_entries_length (env : JsEnv)
    (records : List ConvExportRecord) (formats : List String)
    (template : String) (failures : List FailureRecord) :
    (packageZip env records formats template failures).indexEntries.length =
      records.length := by
  have hfold : ∀ (rs : List ConvExportRecord) (rootFolder : String)
      (st : PackState),
      (rs.foldl (packStep env formats template rootFolder) st).indexEntries.length =
        st.indexEntries.length + rs.length := by
    intro rs rootFolder
    induction rs with
    | nil => intro st; simp
    | cons r rest ih =>
      intro st
      rw [List.foldl_cons, ih]
      have hone : (packStep env formats template rootFolder st r).indexEntries.length =
          st.indexEntries.length + 1 := by
        simp [packStep]
      rw [hone]
      simp only [List.length_cons]
      omega
  unfold packageZip
  dsimp only
  rw [hfold]
  simp

/-- Helper: with no cancellation, the item loop attempts exactly the
not-yet-completed ids, in order, collecting a record per successful load
and a failure per failed load. -/
theorem execItems_uncancelled (run : ExpEnv) :
    ∀ (metas : List ConvMeta) (k : Nat) (att : List String)
      (recs : List ConvExportRecord) (fails : List FailureRecord),
    ∃ kf, execItems run none metas k att recs fails =
      (kf,
       att ++ ((metas.filter fun m =>
         ¬ run.resumeCompletedIds.contains m.id).map ConvMeta.id),
       recs ++ ((metas.filter fun m =>
         ¬ run.resumeCompletedIds.contains m.id).filterMap (loadedRecord run)),
       fails ++ ((metas.filter fun m =>
         ¬ run.resumeCompletedIds.contains m.id).filterMap (loadFailure run)),
       false) := by
  intro metas
  induction metas with
  | nil =>
    intro k att recs fails
    exact ⟨k, by simp [execItems]⟩
  | cons m rest ih =>
    intro k att recs fails
    by_cases hc : run.resumeCompletedIds.contains m.id
    · have hcm : m.id ∈ run.resumeCompletedIds := by simpa using hc
      obtain ⟨kf, hkf⟩ := ih (k + 1) att recs fails
      refine ⟨kf, ?_⟩
      rw [show execItems run none (m :: rest) k att recs fails =
          execItems run none rest (k + 1) att recs fails from by
        simp [execItems, cancelFired_none, hcm]]
      rw [hkf]
      simp [hcm]
    · have hcm : m.id ∉ run.resumeCompletedIds := by simpa using hc
      rcases hl : run.load m.id with e | conv
      · obtain ⟨kf, hkf⟩ := ih (k + 1) (att ++ [m.id]) recs
          (fails ++ [{ id := m.id, title := jsOrStr m.title "Untitled Chat",
                       error := e }])
        refine ⟨kf, ?_⟩
        rw [show execItems run none (m :: rest) k att recs fails =
            execItems run none rest (k + 1) (att ++ [m.id]) recs
              (fails ++ [{ id := m.id,
                           title := jsOrStr m.title "Untitled Chat",
                           error := e }]) from by
          simp [execItems, cancelFired_none, hcm, hl]]
        rw [hkf]
        simp [hcm, hl, loadedRecord, loadFailure, List.append_assoc]
      · obtain ⟨kf, hkf⟩ := ih (k + 3) (att ++ [m.id])
          (recs ++ [{ conversation := conv, images := run.imagesOf conv }]) fails
        refine ⟨kf, ?_⟩
        rw [show execItems run none (m :: rest) k att recs fails =
            execItems run none rest (k + 3) (att ++ [m.id])
              (recs ++ [{ conversation := conv,
                          images := run.imagesOf conv }]) fails from by
          simp [execItems, cancelFired_none, hcm, hl]]
        rw [hkf]
        simp [hcm, hl, loadedRecord, loadFailure, List.append_assoc]

/-- C3 (amended): with no cancellation, a (resumed or fresh) run
finishes, triggers the download, attempts exactly the ids not marked
completed in the checkpoint (in order), and packages one archive entry
per conversation *loaded in this run* — skipped ids contribute no
archive entry, so a resumed run's archive holds only the 2 newly
attempted conversations of the 5-id scenario, not 5. -/
theorem executeExport_resume_semantics (env : JsEnv) (run : ExpEnv) :
    (executeExport env run none).outcome = .done ∧
    (executeExport env run none).downloadTriggered = true ∧
    (executeExport env run none).attempted =
      (pendingMetas run).map ConvMeta.id ∧
    (executeExport env run none).records =
      (pendingMetas run).filterMap (loadedRecord run) ∧
    (executeExport env run none).failures =
      (pendingMetas run).filterMap (loadFailure run) ∧
    archiveEntryCount (executeExport env run none) =
      some ((pendingMetas run).filterMap (loadedRecord run)).length := by
  obtain ⟨kf, hkf⟩ := execItems_uncancelled run run.metas 3 [] [] []
  have hexec : executeExport env run none =
      { outcome := .done,
        attempted := (pendingMetas run).map ConvMeta.id,
        records := (pendingMetas run).filterMap (loadedRecord run),
        failures := (pendingMetas run).filterMap (loadFailure run),
        archive := some (packageZip env
          ((pendingMetas run).filterMap (loadedRecord run)) run.formats
          (jsOrStr run.namingTemplate "\x7bdate\x7d_\x7btitle\x7d")
          ((pendingMetas run).filterMap (loadFailure run))),
        downloadTriggered := true } := by
    unfold executeExport
    rw [hkf]
    simp [cancelFired_none, pendingMetas]
  rw [hexec]
  refine ⟨rfl, rfl, rfl, rfl, rfl, ?_⟩
  unfold archiveEntryCount
  simp [packageZip_entries_length]

/-- C3 (counterexample): in the 5-id scenario with c1–c3 checkpointed,
the resumed run attempts only c4–c5, but its archive holds 2 entries,
not 5, and differs from the uninterrupted run's 5-entry archive. -/
theorem resume_archive_not_equal :
    (executeExport envFixture runResumedFixture none).attempted =
      ["c4", "c5"] ∧
    archiveEntryCount (executeExport envFixture runResumedFixture none) =
      some 2 ∧
    archiveEntryCount (executeExport envFixture runFreshFixture none) =
      some 5 ∧
    archiveEntryCount (executeExport envFixture runResumedFixture none) ≠
      archiveEntryCount (executeExport envFixture runFreshFixture none) :=
  ⟨by decide, by decide, by decide, by decide⟩

/-- Helper: field accesses on a chain node. -/
theorem mkChainNode_id (id : String) (p c : Option String) (msg : JVal) :
    getF (mkChainNode id p c msg) "id" = .str id := by
  cases p <;> cases c <;> rfl

/-- Helper: the parent field of a chain node. -/
theorem mkChainNode_parent (id : String) (p c : Option String) (msg : JVal) :
    getF (mkChainNode id p c msg) "parent" =
      (match p with | some q => JVal.str q | none => JVal.undef) := by
  cases p <;> cases c <;> rfl

/-- Helper: the children field of a chain node. -/
theorem mkChainNode_children (id : String) (p c : Option String) (msg : JVal) :
    getF (mkChainNode id p c msg) "children" =
      .arr (match c with | some cc => [JVal.str cc] | none => []) := by
  cases p <;> cases c <;> rfl

/-- Helper: the message field of a chain node. -/
theorem mkChainNode_message (id : String) (p c : Option String) (msg : JVal) :
    getF (mkChainNode id p c msg) "message" = msg := by
  cases p <;> cases c <;> rfl

/-- Helper: chain nodes are objects, hence truthy. -/
theorem mkChainNode_truthy (id : String) (p c : Option String) (msg : JVal) :
    truthy (mkChainNode id p c msg) = true := by
  cases p <;> cases c <;> rfl

/-- Helper: the keys of a chain are its item ids. -/
theorem chainFields_keys (p : Option String) (items : List (String × JVal)) :
    (chainFields p items).map Prod.fst = items.map Prod.fst := by
  induction items generalizing p with
  | nil => rfl
  | cons q rest ih =>
    obtain ⟨id, msg⟩ := q
    simp [chainFields, ih]

/-- Helper: unfolding one link of a chain. -/
theorem chainFields_cons (p : Option String) (id : String) (msg : JVal)
    (rest : List (String × JVal)) :
    chainFields p ((id, msg) :: rest) =
      (id, mkChainNode id p (rest.head?.map Prod.fst) msg) ::
        chainFields (some id) rest := rfl

/-- Helper: association lookup skips entries with other keys. -/
theorem lookup_append_right (l₁ l₂ : List (String × JVal)) (k : String)
    (h : k ∉ l₁.map Prod.fst) : (l₁ ++ l₂).lookup k = l₂.lookup k := by
  induction l₁ with
  | nil => rfl
  | cons q rest ih =>
    obtain ⟨k1, v1⟩ := q
    simp only [List.map_cons, List.mem_cons] at h
    push_neg at h
    simp only [List.cons_append, List.lookup]
    have hk : (k == k1) = false := by simpa using h.1
    simp only [hk]
    exact ih h.2

/-- Helper: non-head chain nodes are never roots (their parent is the
previous id, which is a nonempty key of the mapping). -/
theorem chain_nonroots (fullKeys : List String) :
    ∀ (items : List (String × JVal)) (prevId : String), prevId ≠ "" →
      prevId ∈ fullKeys →
      (∀ q ∈ items, q.1 ≠ "" ∧ q.1 ∈ fullKeys) →
      ((chainFields (some prevId) items).map Prod.snd).filter
        (isRootNode fullKeys) = [] := by
  intro items
  induction items with
  | nil => intro prevId h1 h2 h3; rfl
  | cons q rest ih =>
    obtain ⟨id, msg⟩ := q
    intro prevId h1 h2 h3
    rw [chainFields_cons]
    simp only [List.map_cons, List.filter_cons]
    rw [if_neg]
    · apply ih id (h3 (id, msg) (by simp)).1 (h3 (id, msg) (by simp)).2
      intro q hq
      exact h3 q (List.mem_cons_of_mem _ hq)
    · simp only [isRootNode, mkChainNode_parent]
      simp only [truthy, strSetHas]
      simp [h1, h2]

/-- Helper: the roots of a chain mapping are exactly its first node. -/
theorem chain_roots (items : List (String × JVal))
    (hne : ∀ q ∈ items, q.1 ≠ "") :
    (objValues (chainMapping items)).filter
      (isRootNode (objKeys (chainMapping items))) =
      (match items with
       | [] => []
       | (id, msg) :: rest =>
         [mkChainNode id none (rest.head?.map Prod.fst) msg]) := by
  match items with
  | [] => rfl
  | (id0, msg0) :: rest =>
    have hkeys : objKeys (chainMapping ((id0, msg0) :: rest)) =
        id0 :: rest.map Prod.fst := by
      simp [chainMapping, objKeys, chainFields_keys]
    have hvals : objValues (chainMapping ((id0, msg0) :: rest)) =
        mkChainNode id0 none (rest.head?.map Prod.fst) msg0 ::
          (chainFields (some id0) rest).map Prod.snd := by
      simp [chainMapping, objValues, chainFields_cons]
    have hroot : isRootNode (objKeys (chainMapping ((id0, msg0) :: rest)))
        (mkChainNode id0 none (rest.head?.map Prod.fst) msg0) = true := by
      simp only [isRootNode, mkChainNode_parent]
      simp [truthy]
    have h0 := chain_nonroots (objKeys (chainMapping ((id0, msg0) :: rest)))
      rest id0 (hne (id0, msg0) (by simp)) (by rw [hkeys]; simp)
      (fun q hq => ⟨hne q (List.mem_cons_of_mem _ hq), by
        rw [hkeys]
        exact List.mem_cons_of_mem _ (List.mem_map_of_mem Prod.fst hq)⟩)
    rw [hvals, List.filter_cons, if_pos hroot, h0]

/-- Helper: a successful association lookup returns a pair of the list. -/
theorem lookup_mem {α β : Type} [BEq α] [LawfulBEq α]
    {l : List (α × β)} {k : α} {v : β}
    (h : l.lookup k = some v) : (k, v) ∈ l := by
  induction l with
  | nil => simp [List.lookup] at h
  | cons q rest ih =>
    obtain ⟨k1, v1⟩ := q
    simp only [List.lookup] at h
    by_cases hk : k = k1
    · subst hk
      simp only [beq_self_eq_true] at h
      cases h
      exact List.mem_cons_self _ _
    · have hkb : (k == k1) = false := by simpa using hk
      simp only [hkb] at h
      exact List.mem_cons_of_mem _ (ih h)

/-- Helper: one unfolding of `walk` at positive fuel, phrased through
`walkVisit`. -/
theorem walk_succ (env : JsEnv) (mapping : JVal) (fuel : Nat) (node : JVal)
    (st : WalkState) :
    walk env mapping (fuel + 1) node st =
      if ¬ truthy node ∨ st.visited.contains (getF node "id") then st
      else
        let st2 := walkVisit env node st
        let lastChild := (asArray (getF node "children")).getLastD .undef
        if truthy lastChild ∧ truthy (jsIndex mapping lastChild) then
          walk env mapping fuel (jsIndex mapping lastChild) st2
        else st2 := rfl

/-- Helper: the message a chain node yields does not depend on its
parent or child links. -/
theorem extractMessage_mkChainNode (env : JsEnv) (id : String)
    (p c : Option String) (msg : JVal) :
    extractMessage env (mkChainNode id p c msg) =
      extractMessage env (mkChainNode id none none msg) := by
  simp only [extractMessage, mkChainNode_message, mkChainNode_id]

/-- Helper: looking a chain key up in the chain built from
`pre ++ (k, m) :: rest` finds the node whose parent is the last id of
`pre` and whose only child is the head id of `rest`. -/
theorem chainFields_lookup :
    ∀ (pre : List (String × JVal)) (p : Option String)
      (rest : List (String × JVal)) (k : String) (m : JVal),
      k ∉ pre.map Prod.fst →
      (chainFields p (pre ++ (k, m) :: rest)).lookup k =
        some (mkChainNode k
          (match pre.getLast? with | some q => some q.1 | none => p)
          (rest.head?.map Prod.fst) m) := by
  intro pre
  induction pre with
  | nil =>
    intro p rest k m _
    simp [chainFields, List.lookup]
  | cons q pre' ih =>
    obtain ⟨id1, m1⟩ := q
    intro p rest k m hfresh
    simp only [List.map_cons, List.mem_cons] at hfresh
    push_neg at hfresh
    rw [List.cons_append, chainFields_cons]
    simp only [List.lookup]
    have hkb : (k == id1) = false := by simpa using hfresh.1
    simp only [hkb]
    rw [ih (some id1) rest k m hfresh.2]
    have hgl : (match pre'.getLast? with
        | some q => some q.1 | none => some id1) =
        (match ((id1, m1) :: pre').getLast? with
        | some q => some q.1 | none => p) := by
      cases pre' with
      | nil => rfl
      | cons r pr =>
        simp only [List.getLast?_cons_cons]
        cases hg : (r :: pr).getLast? with
        | none =>
          have hs : (r :: pr).getLast?.isSome := by
            simp [List.getLast?_isSome]
          rw [hg] at hs
          cases hs
        | some q => rfl
    rw [hgl]

/-- Helper: the traversal over an object mapping, fully unfolded. -/
theorem extractTraversal_obj (env : JsEnv) (fields : List (String × JVal)) :
    extractTraversal env (.obj fields) =
      ((fields.map Prod.snd).filter (isRootNode (fields.map Prod.fst))).foldl
        (fun st root =>
          walk env (.obj fields) ((fields.map Prod.snd).length + 1) root st)
        ⟨[], []⟩ := rfl

/-- Helper: at a branch node with children `[a, b]`, the walk recurses
into `b` only; `a` is never inspected. -/
theorem walk_branch_step (env : JsEnv) (mapping : JVal) (fuel : Nat)
    (node : JVal) (st : WalkState) (a b : JVal)
    (h1 : truthy node = true)
    (h2 : st.visited.contains (getF node "id") = false)
    (hch : asArray (getF node "children") = [a, b])
    (h3 : truthy b = true)
    (h4 : truthy (jsIndex mapping b) = true) :
    walk env mapping (fuel + 1) node st =
      walk env mapping fuel (jsIndex mapping b) (walkVisit env node st) := by
  have hmem : getF node "id" ∉ st.visited := by simpa using h2
  rw [walk_succ]
  rw [if_neg (by simp [h1, hmem])]
  have hl : (asArray (getF node "children")).getLastD .undef = b := by
    rw [hch]; rfl
  simp only [hl]
  rw [if_pos ⟨by simp [h3], by simp [h4]⟩]

/-- Helper: `walkVisit` in append form. -/
theorem walkVisit_eq (env : JsEnv) (node : JVal) (st : WalkState) :
    walkVisit env node st =
      { ordered := st.ordered ++
          (match extractMessage env node with
           | some msg => [msg]
           | none => []),
        visited := st.visited ++ [getF node "id"] } := by
  unfold walkVisit
  cases extractMessage env node <;> simp

/-- Helper: walking a linear chain from the node of `(k, m)` visits the
remaining chain in document order: it appends the chain ids to the
visited set and the extracted messages, in order, to the output. -/
theorem walk_chain :
    ∀ (rest : List (String × JVal)) (env : JsEnv)
      (items pre : List (String × JVal)) (k : String) (m : JVal)
      (p : Option String) (st : WalkState) (fuel : Nat),
      items = pre ++ (k, m) :: rest →
      (items.map Prod.fst).Nodup →
      (∀ q ∈ items, q.1 ≠ "") →
      (∀ q ∈ (k, m) :: rest, JVal.str q.1 ∉ st.visited) →
      rest.length + 1 ≤ fuel →
      walk env (chainMapping items) fuel
        (mkChainNode k p (rest.head?.map Prod.fst) m) st =
        { ordered := st.ordered ++
            ((k, m) :: rest).filterMap
              (fun q => extractMessage env (mkChainNode q.1 none none q.2)),
          visited := st.visited ++
            ((k, m) :: rest).map (fun q => JVal.str q.1) } := by
  intro rest
  induction rest with
  | nil =>
    intro env items pre k m p st fuel hsplit hnodup hne hvis hfuel
    obtain ⟨f, rfl⟩ : ∃ f, fuel = f + 1 := ⟨fuel - 1, by omega⟩
    have hstk : JVal.str k ∉ st.visited := hvis (k, m) (List.mem_cons_self _ _)
    show walk env (chainMapping items) (f + 1) (mkChainNode k p none m) st = _
    rw [walk_succ,
      if_neg (by simp [mkChainNode_truthy, mkChainNode_id, hstk])]
    have hch : (asArray (getF (mkChainNode k p none m) "children")).getLastD
        JVal.undef = JVal.undef := by
      rw [mkChainNode_children]; rfl
    simp only [walkVisit_eq, hch, mkChainNode_id]
    rw [if_neg (by simp [truthy])]
    rw [extractMessage_mkChainNode]
    cases hmsg : extractMessage env (mkChainNode k none none m) <;>
      simp [List.filterMap_cons, hmsg]
  | cons q2 rest2 ih =>
    obtain ⟨k2, m2⟩ := q2
    intro env items pre k m p st fuel hsplit hnodup hne hvis hfuel
    obtain ⟨f, rfl⟩ : ∃ f, fuel = f + 1 := ⟨fuel - 1, by omega⟩
    have hstk : JVal.str k ∉ st.visited := hvis (k, m) (List.mem_cons_self _ _)
    have hids : items.map Prod.fst =
        pre.map Prod.fst ++ k :: k2 :: rest2.map Prod.fst := by
      rw [hsplit]; simp
    have hnd := hnodup
    rw [hids] at hnd
    have hnd2 : (k :: k2 :: rest2.map Prod.fst).Nodup := hnd.of_append_right
    have hknotin : k ∉ k2 :: rest2.map Prod.fst := (List.nodup_cons.mp hnd2).1
    have hdisj : (pre.map Prod.fst).Disjoint (k :: k2 :: rest2.map Prod.fst) :=
      (List.nodup_append.mp hnd).2.2
    have hk2pre : k2 ∉ pre.map Prod.fst := fun hmem => hdisj hmem (by simp)
    have hk2k : k2 ≠ k := fun h => hknotin (by rw [← h]; simp)
    have hk2fresh : k2 ∉ (pre ++ [(k, m)]).map Prod.fst := by
      simp only [List.map_append, List.mem_append]
      push_neg
      exact ⟨hk2pre, by simpa using hk2k⟩
    have hsplit2 : items = (pre ++ [(k, m)]) ++ (k2, m2) :: rest2 := by
      rw [hsplit]; simp
    have hlk := chainFields_lookup (pre ++ [(k, m)]) none rest2 k2 m2 hk2fresh
    have hidx : jsIndex (chainMapping items) (JVal.str k2) =
        mkChainNode k2
          (match (pre ++ [(k, m)]).getLast? with
           | some q => some q.1
           | none => none)
          (rest2.head?.map Prod.fst) m2 := by
      show (match (chainFields none items).lookup
              (jsToString (JVal.str k2)) with
            | some x => x
            | none => JVal.undef) =
        mkChainNode k2
          (match (pre ++ [(k, m)]).getLast? with
           | some q => some q.1
           | none => none)
          (rest2.head?.map Prod.fst) m2
      rw [show jsToString (JVal.str k2) = k2 from rfl, hsplit2, hlk]
    have hk2ne : k2 ≠ "" :=
      hne (k2, m2) (by rw [hsplit]; simp)
    have hvis2 : ∀ q ∈ (k2, m2) :: rest2,
        JVal.str q.1 ∉ st.visited ++ [JVal.str k] := by
      intro q hq
      have hq1 : q.1 ∈ k2 :: rest2.map Prod.fst := by
        rcases List.mem_cons.mp hq with h | h
        · rw [h]
          exact List.mem_cons_self _ _
        · exact List.mem_cons_of_mem _ (List.mem_map_of_mem Prod.fst h)
      simp only [List.mem_append, List.mem_singleton]
      push_neg
      refine ⟨hvis q (List.mem_cons_of_mem _ hq), ?_⟩
      intro heq
      have hqk : q.1 = k := by cases heq; rfl
      exact hknotin (hqk ▸ hq1)
    have hfuel2 : rest2.length + 1 ≤ f := by
      simp only [List.length_cons] at hfuel
      omega
    show walk env (chainMapping items) (f + 1)
      (mkChainNode k p (some k2) m) st = _
    rw [walk_succ,
      if_neg (by simp [mkChainNode_truthy, mkChainNode_id, hstk])]
    have hch : (asArray (getF (mkChainNode k p (some k2) m) "children")).getLastD
        JVal.undef = JVal.str k2 := by
      rw [mkChainNode_children]; rfl
    simp only [walkVisit_eq, hch, mkChainNode_id]
    rw [if_pos ⟨by simp [truthy, hk2ne], by simp [hidx, mkChainNode_truthy]⟩]
    rw [extractMessage_mkChainNode, hidx]
    cases hmsg : extractMessage env (mkChainNode k none none m) <;>
      simp only [hmsg] <;>
      rw [ih env items (pre ++ [(k, m)]) k2 m2 _ _ f hsplit2 hnodup hne
        hvis2 hfuel2] <;>
      simp [List.filterMap_cons, hmsg, List.append_assoc]

/-- Helper: over a linear chain, extraction yields exactly the in-order
messages of the chain nodes (document order). -/
theorem chainMapping_messages (env : JsEnv) (items : List (String × JVal))
    (hne : ∀ q ∈ items, q.1 ≠ "")
    (hnodup : (items.map Prod.fst).Nodup) :
    extractMessages env (chainMapping items) =
      items.filterMap
        (fun q => extractMessage env (mkChainNode q.1 none none q.2)) := by
  cases items with
  | nil => rfl
  | cons q rest =>
    obtain ⟨id0, msg0⟩ := q
    have hroots : ((chainFields none ((id0, msg0) :: rest)).map Prod.snd).filter
        (isRootNode ((chainFields none ((id0, msg0) :: rest)).map Prod.fst)) =
        [mkChainNode id0 none (rest.head?.map Prod.fst) msg0] := by
      have h := chain_roots ((id0, msg0) :: rest) hne
      simpa [chainMapping, objValues, objKeys] using h
    have hlen : (chainFields none ((id0, msg0) :: rest)).length =
        rest.length + 1 := by
      have h := congrArg List.length
        (chainFields_keys none ((id0, msg0) :: rest))
      simpa using h
    have hstep : extractMessages env (chainMapping ((id0, msg0) :: rest)) =
        (extractTraversal env (chainMapping ((id0, msg0) :: rest))).ordered :=
      rfl
    have htrav : extractTraversal env (chainMapping ((id0, msg0) :: rest)) =
        (((chainFields none ((id0, msg0) :: rest)).map Prod.snd).filter
          (isRootNode
            ((chainFields none ((id0, msg0) :: rest)).map Prod.fst))).foldl
          (fun st root =>
            walk env (chainMapping ((id0, msg0) :: rest))
              (((chainFields none ((id0, msg0) :: rest)).map Prod.snd).length
                + 1)
              root st)
          ⟨[], []⟩ := rfl
    rw [hstep, htrav, hroots]
    simp only [List.foldl_cons, List.foldl_nil]
    rw [walk_chain rest env ((id0, msg0) :: rest) [] id0 msg0 none ⟨[], []⟩ _
      rfl hnodup hne (by intro q hq; simp)
      (by simp only [List.length_map, hlen]; omega)]
    simp

/-- Helper: the walk avoids a closed id set `S`.  If every mapping value
carries its key as `id`, and from outside `S` the last-child link never
enters `S`, then a walk started outside `S` visits no `S` id and emits
only messages of nodes stored under keys outside `S`. -/
theorem walk_safe (env : JsEnv) (fields : List (String × JVal))
    (S : List String)
    (W1 : ∀ p ∈ fields, getF p.2 "id" = JVal.str p.1)
    (H1 : ∀ p ∈ fields, p.1 ∉ S → jsToString (lastChildOf p.2) ∉ S) :
    ∀ (fuel : Nat) (node : JVal) (st : WalkState),
      (truthy node = true → ∃ p ∈ fields, p.1 ∉ S ∧ p.2 = node) →
      (∀ s ∈ S, JVal.str s ∉ st.visited) →
      (∀ msg ∈ st.ordered,
        ∃ p ∈ fields, p.1 ∉ S ∧ extractMessage env p.2 = some msg) →
      (∀ s ∈ S, JVal.str s ∉
        (walk env (.obj fields) fuel node st).visited) ∧
      (∀ msg ∈ (walk env (.obj fields) fuel node st).ordered,
        ∃ p ∈ fields, p.1 ∉ S ∧ extractMessage env p.2 = some msg) := by
  intro fuel
  induction fuel with
  | zero => intro node st _ hv ho; exact ⟨hv, ho⟩
  | succ f ih =>
    intro node st hsafe hv ho
    rw [walk_succ]
    by_cases hguard : ¬ truthy node ∨ st.visited.contains (getF node "id")
    · rw [if_pos hguard]
      exact ⟨hv, ho⟩
    · rw [if_neg hguard]
      have htr : truthy node = true := by
        by_contra h
        exact hguard (Or.inl (by simpa using h))
      obtain ⟨p, hp, hpS, hpv⟩ := hsafe htr
      have hvid : getF node "id" = JVal.str p.1 := by
        rw [← hpv]
        exact W1 p hp
      have hv2 : ∀ s ∈ S, JVal.str s ∉ st.visited ++ [getF node "id"] := by
        intro s hs
        simp only [List.mem_append, List.mem_singleton]
        push_neg
        refine ⟨hv s hs, ?_⟩
        intro heq
        rw [hvid] at heq
        have hsp : s = p.1 := by cases heq; rfl
        exact hpS (hsp ▸ hs)
      have ho2 : ∀ msg ∈ st.ordered ++
          (match extractMessage env node with
           | some m0 => [m0]
           | none => []),
          ∃ q ∈ fields, q.1 ∉ S ∧ extractMessage env q.2 = some msg := by
        intro msg hmsg
        simp only [List.mem_append] at hmsg
        rcases hmsg with h | h
        · exact ho msg h
        · cases hext : extractMessage env node with
          | none =>
            rw [hext] at h
            simp at h
          | some m0 =>
            rw [hext] at h
            simp only [List.mem_singleton] at h
            subst h
            exact ⟨p, hp, hpS, by rw [hpv]; exact hext⟩
      simp only [walkVisit_eq]
      by_cases hb : truthy ((asArray (getF node "children")).getLastD .undef) ∧
          truthy (jsIndex (.obj fields)
            ((asArray (getF node "children")).getLastD .undef))
      · rw [if_pos hb]
        have hb2 : truthy (jsIndex (JVal.obj fields)
            ((asArray (getF node "children")).getLastD JVal.undef)) = true := by
          simpa using hb.2
        cases hlu : fields.lookup (jsToString
            ((asArray (getF node "children")).getLastD JVal.undef)) with
        | none =>
          exfalso
          have hz : jsIndex (JVal.obj fields)
              ((asArray (getF node "children")).getLastD JVal.undef) =
              JVal.undef := by
            show (match fields.lookup (jsToString
                ((asArray (getF node "children")).getLastD JVal.undef)) with
              | some x => x
              | none => JVal.undef) = JVal.undef
            rw [hlu]
          rw [hz] at hb2
          simp [truthy] at hb2
        | some x =>
          have hxi : jsIndex (JVal.obj fields)
              ((asArray (getF node "children")).getLastD JVal.undef) = x := by
            show (match fields.lookup (jsToString
                ((asArray (getF node "children")).getLastD JVal.undef)) with
              | some y => y
              | none => JVal.undef) = x
            rw [hlu]
          have hmem := lookup_mem hlu
          have hkey : jsToString
              ((asArray (getF node "children")).getLastD JVal.undef) ∉ S := by
            have h1 := H1 p hp hpS
            rw [hpv] at h1
            exact h1
          exact ih _ _ (fun _ => ⟨_, hmem, hkey, hxi.symm⟩) hv2 ho2
      · rw [if_neg hb]
        exact ⟨hv2, ho2⟩

/-- Helper: the fold of safe walks over safe roots keeps the invariant. -/
theorem foldl_walk_safe (env : JsEnv) (fields : List (String × JVal))
    (S : List String)
    (W1 : ∀ p ∈ fields, getF p.2 "id" = JVal.str p.1)
    (H1 : ∀ p ∈ fields, p.1 ∉ S → jsToString (lastChildOf p.2) ∉ S)
    (F : Nat) :
    ∀ (roots : List JVal) (st : WalkState),
      (∀ r ∈ roots, truthy r = true → ∃ p ∈ fields, p.1 ∉ S ∧ p.2 = r) →
      (∀ s ∈ S, JVal.str s ∉ st.visited) →
      (∀ msg ∈ st.ordered,
        ∃ p ∈ fields, p.1 ∉ S ∧ extractMessage env p.2 = some msg) →
      (∀ s ∈ S, JVal.str s ∉
        (roots.foldl (fun st2 root =>
          walk env (.obj fields) F root st2) st).visited) ∧
      (∀ msg ∈ (roots.foldl (fun st2 root =>
          walk env (.obj fields) F root st2) st).ordered,
        ∃ p ∈ fields, p.1 ∉ S ∧ extractMessage env p.2 = some msg) := by
  intro roots
  induction roots with
  | nil => intro st _ hv ho; exact ⟨hv, ho⟩
  | cons r rs ih =>
    intro st hroots hv ho
    simp only [List.foldl_cons]
    have h1 := walk_safe env fields S W1 H1 F r st
      (hroots r (List.mem_cons_self _ _)) hv ho
    exact ih _ (fun r2 hr2 => hroots r2 (List.mem_cons_of_mem _ hr2))
      h1.1 h1.2

/-- Helper: the traversal of an object mapping avoids a closed id set
`S` whose nodes are never roots: no `S` id is ever visited and every
extracted message originates from a node stored under a key outside
`S`. -/
theorem traversal_avoids (env : JsEnv) (fields : List (String × JVal))
    (S : List String)
    (W1 : ∀ p ∈ fields, getF p.2 "id" = JVal.str p.1)
    (H1 : ∀ p ∈ fields, p.1 ∉ S → jsToString (lastChildOf p.2) ∉ S)
    (H2 : ∀ p ∈ fields, p.1 ∈ S →
      isRootNode (fields.map Prod.fst) p.2 = false) :
    (∀ s ∈ S, JVal.str s ∉ (extractTraversal env (.obj fields)).visited) ∧
    (∀ msg ∈ extractMessages env (.obj fields),
      ∃ p ∈ fields, p.1 ∉ S ∧ extractMessage env p.2 = some msg) := by
  have hroots : ∀ r ∈ (fields.map Prod.snd).filter
      (isRootNode (fields.map Prod.fst)),
      truthy r = true → ∃ p ∈ fields, p.1 ∉ S ∧ p.2 = r := by
    intro r hr _
    rw [List.mem_filter] at hr
    obtain ⟨hmem, hroot⟩ := hr
    obtain ⟨p, hp, hpr⟩ := List.mem_map.mp hmem
    by_cases hpS : p.1 ∈ S
    · exfalso
      have hf := H2 p hp hpS
      rw [hpr] at hf
      rw [hf] at hroot
      cases hroot
    · exact ⟨p, hp, hpS, hpr⟩
  have h := foldl_walk_safe env fields S W1 H1
    ((fields.map Prod.snd).length + 1)
    ((fields.map Prod.snd).filter (isRootNode (fields.map Prod.fst)))
    ⟨[], []⟩ hroots (by simp) (by simp)
  have hms : extractMessages env (.obj fields) =
      (extractTraversal env (.obj fields)).ordered := rfl
  rw [hms, extractTraversal_obj]
  exact h

/-- C4: the branch-traversal contract of `extractMessages`.  (1) At a
node whose children array is `[a, b]`, the walk recurses into the
mapping node of `b` only — the sibling `a` is never entered.  (2) For a
mapping whose nodes record their key as `id`, and an id set `S` (such as
the ignored subtree below `a`) that no outside node's last-child link
enters and whose nodes are never roots, the traversal never visits an
`S` id and every output message comes from a node stored outside `S` —
the skipped subtree contributes no messages.  (3) Over a single linear
path, the output equals the in-order messages of the chain: document
order of the nodes `extractMessage` accepts. -/
theorem branch_traversal_contract (env : JsEnv) :
    (∀ (mapping : JVal) (fuel : Nat) (node : JVal) (st : WalkState)
       (a b : JVal),
       truthy node = true →
       st.visited.contains (getF node "id") = false →
       asArray (getF node "children") = [a, b] →
       truthy b = true →
       truthy (jsIndex mapping b) = true →
       walk env mapping (fuel + 1) node st =
         walk env mapping fuel (jsIndex mapping b)
           (walkVisit env node st)) ∧
    (∀ (fields : List (String × JVal)) (S : List String),
       (∀ p ∈ fields, getF p.2 "id" = JVal.str p.1) →
       (∀ p ∈ fields, p.1 ∉ S → jsToString (lastChildOf p.2) ∉ S) →
       (∀ p ∈ fields, p.1 ∈ S →
         isRootNode (fields.map Prod.fst) p.2 = false) →
       (∀ s ∈ S, JVal.str s ∉ (extractTraversal env (.obj fields)).visited) ∧
       (∀ msg ∈ extractMessages env (.obj fields),
         ∃ p ∈ fields, p.1 ∉ S ∧ extractMessage env p.2 = some msg)) ∧
    (∀ (items : List (String × JVal)),
       (∀ q ∈ items, q.1 ≠ "") →
       (items.map Prod.fst).Nodup →
       extractMessages env (chainMapping items) =
         items.filterMap
           (fun q => extractMessage env (mkChainNode q.1 none none q.2))) := by
  refine ⟨?_, ?_, ?_⟩
  · intro mapping fuel node st a b h1 h2 hch h3 h4
    exact walk_branch_step env mapping fuel node st a b h1 h2 hch h3 h4
  · intro fields S W1 H1 H2
    exact traversal_avoids env fields S W1 H1 H2
  · intro items hne hnodup
    exact chainMapping_messages env items hne hnodup

/-- C4 (witness): the contract at concrete inputs — a concrete branch
step, the concrete branching mapping with the skipped set S = ["a"], and
the concrete two-node chain. -/
theorem branch_traversal_contract_witness :
    (walk envFixture branchMapFixture 1 branchNodeFixture ⟨[], []⟩ =
      walk envFixture branchMapFixture 0
        (jsIndex branchMapFixture (JVal.str "b"))
        (walkVisit envFixture branchNodeFixture ⟨[], []⟩)) ∧
    ((∀ s ∈ ["a"], JVal.str s ∉
        (extractTraversal envFixture (.obj branchFieldsFixture)).visited) ∧
     (∀ msg ∈ extractMessages envFixture (.obj branchFieldsFixture),
        ∃ p ∈ branchFieldsFixture, p.1 ∉ ["a"] ∧
          extractMessage envFixture p.2 = some msg)) ∧
    (extractMessages envFixture (chainMapping chainItemsFixture) =
      chainItemsFixture.filterMap
        (fun q => extractMessage envFixture (mkChainNode q.1 none none q.2))) :=
  ⟨(branch_traversal_contract envFixture).1 branchMapFixture 0
      branchNodeFixture ⟨[], []⟩ (JVal.str "a") (JVal.str "b")
      (by decide) (by decide) (by decide) (by decide) (by decide),
   (branch_traversal_contract envFixture).2.1 branchFieldsFixture ["a"]
      (by decide) (by decide) (by decide),
   (branch_traversal_contract envFixture).2.2 chainItemsFixture
      (by decide) (by decide)⟩

/-- Helper: `toList` distributes over string append. -/
theorem toList_append : ∀ (a b : String),
    (a ++ b).toList = a.toList ++ b.toList :=
  fun ⟨_⟩ ⟨_⟩ => rfl

/-- Helper: the head of an append with a nonempty left part. -/
theorem head?_append_left (l1 l2 : List Char) (h : l1 ≠ []) :
    (l1 ++ l2).head? = l1.head? := by
  cases l1 with
  | nil => cases h rfl
  | cons c cs => rfl

/-- Helper: membership in the output of a single-character replaceAll:
every character comes from the replacement or survives from the input
and differs from the replaced character. -/
theorem replaceAllChar_mem (c : Char) (rep : List Char) (l : List Char) :
    ∀ x ∈ replaceAllChar c rep l, x ∈ rep ∨ (x ∈ l ∧ x ≠ c) := by
  induction l with
  | nil => intro x hx; cases hx
  | cons d ds ih =>
    intro x hx
    simp only [replaceAllChar] at hx
    by_cases hd : d = c
    · rw [if_pos hd] at hx
      rcases List.mem_append.mp hx with h | h
      · exact Or.inl h
      · rcases ih x h with h2 | h2
        · exact Or.inl h2
        · exact Or.inr ⟨List.mem_cons_of_mem _ h2.1, h2.2⟩
    · rw [if_neg hd] at hx
      rcases List.mem_cons.mp hx with h | h
      · subst h
        exact Or.inr ⟨List.mem_cons_self _ _, hd⟩
      · rcases ih x h with h2 | h2
        · exact Or.inl h2
        · exact Or.inr ⟨List.mem_cons_of_mem _ h2.1, h2.2⟩

/-- Helper: `escapeHtml` output contains none of the four
markup-significant characters. -/
theorem escapeHtml_mem (s : String) :
    ∀ x ∈ (escapeHtml s).toList,
      x ≠ '<' ∧ x ≠ '>' ∧ x ≠ '"' ∧ x ≠ '\'' := by
  intro x hx
  have h0 : (escapeHtml s).toList =
      replaceAllChar '\'' "&#39;".toList
        (replaceAllChar '"' "&quot;".toList
          (replaceAllChar '>' "&gt;".toList
            (replaceAllChar '<' "&lt;".toList
              (replaceAllChar '&' "&amp;".toList s.toList)))) := rfl
  rw [h0] at hx
  rcases replaceAllChar_mem _ _ _ x hx with h | ⟨h, h5⟩
  · exact (by decide : ∀ y ∈ "&#39;".toList,
      y ≠ '<' ∧ y ≠ '>' ∧ y ≠ '"' ∧ y ≠ '\'') x h
  · rcases replaceAllChar_mem _ _ _ x h with h | ⟨h, h4⟩
    · exact (by decide : ∀ y ∈ "&quot;".toList,
        y ≠ '<' ∧ y ≠ '>' ∧ y ≠ '"' ∧ y ≠ '\'') x h
    · rcases replaceAllChar_mem _ _ _ x h with h | ⟨h, h3⟩
      · exact (by decide : ∀ y ∈ "&gt;".toList,
          y ≠ '<' ∧ y ≠ '>' ∧ y ≠ '"' ∧ y ≠ '\'') x h
      · rcases replaceAllChar_mem _ _ _ x h with h | ⟨h, h2⟩
        · exact (by decide : ∀ y ∈ "&lt;".toList,
            y ≠ '<' ∧ y ≠ '>' ∧ y ≠ '"' ∧ y ≠ '\'') x h
        · exact ⟨h2, h3, h4, h5⟩

/-- Helper: a cons with a harmless head keeps the no-script-opener
shape. -/
theorem noLtS_cons (c : Char) (l : List Char) (hc : c ≠ '<')
    (hl : noLtS l = true) : noLtS (c :: l) = true := by
  cases l with
  | nil => rfl
  | cons d ds =>
    simp only [noLtS, Bool.and_eq_true]
    exact ⟨by simp [hc], hl⟩

/-- Helper: append preserves the no-script-opener shape when the right
part does not start with the letter s. -/
theorem noLtS_append_head (a b : List Char) (ha : noLtS a = true)
    (hb : noLtS b = true) (hh : b.head? ≠ some 's') :
    noLtS (a ++ b) = true := by
  induction a with
  | nil => simpa using hb
  | cons c a' ih =>
    cases a' with
    | nil =>
      cases b with
      | nil => rfl
      | cons d ds =>
        simp only [List.cons_append, List.nil_append, noLtS,
          Bool.and_eq_true]
        refine ⟨?_, hb⟩
        have hd : d ≠ 's' := by simpa using hh
        simp [hd]
    | cons e a'' =>
      simp only [noLtS, Bool.and_eq_true] at ha
      have h2 := ih ha.2
      simp only [List.cons_append] at h2 ⊢
      simp only [noLtS, Bool.and_eq_true]
      exact ⟨ha.1, h2⟩

/-- Helper: append preserves the no-script-opener shape when the left
part does not end with a less-than sign. -/
theorem noLtS_append_last (a b : List Char) (ha : noLtS a = true)
    (hb : noLtS b = true) (hl : a.getLast? ≠ some '<') :
    noLtS (a ++ b) = true := by
  induction a with
  | nil => simpa using hb
  | cons c a' ih =>
    cases a' with
    | nil =>
      have hc : c ≠ '<' := by simpa using hl
      simpa using noLtS_cons c b hc hb
    | cons e a'' =>
      have hgl : (e :: a'').getLast? ≠ some '<' := by
        simpa [List.getLast?_cons_cons] using hl
      simp only [noLtS, Bool.and_eq_true] at ha
      have h2 := ih ha.2 hgl
      simp only [List.cons_append] at h2 ⊢
      simp only [noLtS, Bool.and_eq_true]
      exact ⟨ha.1, h2⟩

/-- Helper: a list without any less-than sign trivially has the
no-script-opener shape. -/
theorem noLtS_of_no_lt (l : List Char) (h : ∀ x ∈ l, x ≠ '<') :
    noLtS l = true := by
  induction l with
  | nil => rfl
  | cons c cs ih =>
    exact noLtS_cons c cs (h c (List.mem_cons_self _ _))
      (ih fun x hx => h x (List.mem_cons_of_mem _ hx))

/-- Helper: replacing newlines by br tags in a list without less-than
signs keeps the no-script-opener shape (the inserted tag starts with a
b, not an s). -/
theorem noLtS_replaceNl (l : List Char) (h : ∀ x ∈ l, x ≠ '<') :
    noLtS (replaceAllChar '\n' "<br>".toList l) = true := by
  induction l with
  | nil => rfl
  | cons d ds ih =>
    have hds := ih fun x hx => h x (List.mem_cons_of_mem _ hx)
    by_cases hd : d = '\n'
    · have he : replaceAllChar '\n' "<br>".toList (d :: ds) =
          "<br>".toList ++ replaceAllChar '\n' "<br>".toList ds := by
        simp [replaceAllChar, hd]
      rw [he]
      exact noLtS_append_last _ _ (by decide) hds (by decide)
    · have he : replaceAllChar '\n' "<br>".toList (d :: ds) =
          d :: replaceAllChar '\n' "<br>".toList ds := by
        simp [replaceAllChar, hd]
      rw [he]
      exact noLtS_cons _ _ (h d (List.mem_cons_self _ _)) hds

/-- Helper: a list with the no-script-opener shape contains no
occurrence of the script-tag substring at all. -/
theorem countSub_script_of_noLtS (l : List Char) (h : noLtS l = true) :
    countSub "<script>".toList l = 0 := by
  induction l with
  | nil => rfl
  | cons c cs ih =>
    have h2 : noLtS cs = true := by
      cases cs with
      | nil => rfl
      | cons d ds =>
        simp only [noLtS, Bool.and_eq_true] at h
        exact h.2
    have hpre : "<script>".toList.isPrefixOf (c :: cs) = false := by
      cases cs with
      | nil => simp [List.isPrefixOf]
      | cons d ds =>
        simp only [noLtS, Bool.and_eq_true] at h
        have hcd : ¬ (c = '<' ∧ d = 's') := by
          have h1 := h.1
          intro hx
          simp [hx.1, hx.2] at h1
        show ('<' :: 's' :: "cript>".toList).isPrefixOf (c :: d :: ds) =
          false
        simp only [List.isPrefixOf]
        by_cases hc : c = '<'
        · have hd : d ≠ 's' := fun hd => hcd ⟨hc, hd⟩
          have : ('s' == d) = false := by
            rw [beq_eq_false_iff_ne]
            exact fun hx => hd hx.symm
          simp [this]
        · have : ('<' == c) = false := by
            rw [beq_eq_false_iff_ne]
            exact fun hx => hc hx.symm
          simp [this]
    simp only [countSub, hpre, if_neg]
    simpa using ih h2

/-- Helper: occurrence counting distributes over an append whenever no
nonempty suffix of the left part shorter than the pattern is a prefix of
the pattern (no occurrence can straddle the boundary). -/
theorem countSub_append_safe (p a b : List Char)
    (H : ∀ s ∈ a.tails,
      (s.isEmpty || !(s.isPrefixOf p) || p.isPrefixOf s) = true) :
    countSub p (a ++ b) = countSub p a + countSub p b := by
  induction a with
  | nil => simp [countSub]
  | cons c a' ih =>
    have H' : ∀ s ∈ a'.tails,
        (s.isEmpty || !(s.isPrefixOf p) || p.isPrefixOf s) = true := by
      intro s hs
      apply H
      rw [List.tails_cons]
      exact List.mem_cons_of_mem _ hs
    have hkey : p.isPrefixOf (c :: (a' ++ b)) = p.isPrefixOf (c :: a') := by
      have hiff : p <+: (c :: a') ++ b ↔ p <+: (c :: a') := by
        constructor
        · intro hpre
          by_cases hlen : p.length ≤ (c :: a').length
          · exact List.prefix_of_prefix_length_le hpre
              (List.prefix_append _ _) hlen
          · push_neg at hlen
            exfalso
            have hs := H (c :: a')
              (by rw [List.tails_cons]; exact List.mem_cons_self _ _)
            have h2 : (c :: a') <+: p :=
              List.prefix_of_prefix_length_le (List.prefix_append _ _)
                hpre (by omega)
            have h4 : (c :: a').isPrefixOf p = true :=
              List.isPrefixOf_iff_prefix.mpr h2
            have h3 : p.isPrefixOf (c :: a') = false := by
              cases hcc : p.isPrefixOf (c :: a')
              · rfl
              · have hle := (List.isPrefixOf_iff_prefix.mp hcc).length_le
                omega
            rw [h4, h3] at hs
            simp at hs
        · intro hpre
          exact hpre.trans (List.prefix_append _ _)
      rw [Bool.eq_iff_iff]
      simp only [List.isPrefixOf_iff_prefix]
      exact hiff
    rw [List.cons_append]
    show (if p.isPrefixOf (c :: (a' ++ b)) then 1 else 0) +
        countSub p (a' ++ b) =
      ((if p.isPrefixOf (c :: a') then 1 else 0) + countSub p a') +
        countSub p b
    rw [hkey, ih H']
    omega

/-- Helper: a left part without any less-than sign contributes no
occurrence of a pattern that starts with one, and no occurrence can
start inside it. -/
theorem countSub_skip_no_lt (p' a b : List Char)
    (ha : ∀ x ∈ a, x ≠ '<') :
    countSub ('<' :: p') (a ++ b) = countSub ('<' :: p') b := by
  induction a with
  | nil => rfl
  | cons c a' ih =>
    have hc : c ≠ '<' := ha c (List.mem_cons_self _ _)
    have hbc : ('<' == c) = false := by
      rw [beq_eq_false_iff_ne]
      exact fun h => hc h.symm
    have hpre : ('<' :: p').isPrefixOf (c :: (a' ++ b)) = false := by
      simp [List.isPrefixOf, hbc]
    rw [List.cons_append]
    show (if ('<' :: p').isPrefixOf (c :: (a' ++ b)) then 1 else 0) +
        countSub ('<' :: p') (a' ++ b) = countSub ('<' :: p') b
    rw [hpre, ih fun x hx => ha x (List.mem_cons_of_mem _ hx)]
    simp

/-- Helper: escaped text keeps the no-script-opener shape. -/
theorem noLtS_escapeHtml (s : String) : noLtS (escapeHtml s).toList = true :=
  noLtS_of_no_lt _ fun x hx => (escapeHtml_mem s x hx).1

/-- Helper: escaped text with br substitution keeps the shape. -/
theorem noLtS_nlToBr_escape (t : String) :
    noLtS (nlToBr (escapeHtml t)).toList = true :=
  noLtS_replaceNl _ fun x hx => (escapeHtml_mem t x hx).1

/-- Helper: the filtered role class characters are lowercase letters,
hence free of less-than signs. -/
theorem noLtS_roleChars (role : String) :
    noLtS ((String.mk (role.toList.filter
      fun c => 97 ≤ c.toNat ∧ c.toNat ≤ 122)).toList) = true := by
  apply noLtS_of_no_lt
  intro x hx
  have hx2 := (List.mem_filter.mp (show x ∈ List.filter _ _ from hx)).2
  simp only [decide_eq_true_eq] at hx2
  intro he
  rw [he] at hx2
  exact absurd hx2.1 (by decide)

/-- Helper: a role label (a fixed label or the escaped role) keeps the
shape. -/
theorem noLtS_label (role : String) :
    noLtS (match roleLabels.lookup role with
      | some l => l
      | none => escapeHtml role).toList = true := by
  cases h : roleLabels.lookup role with
  | none => exact noLtS_escapeHtml role
  | some l =>
    have hm := lookup_mem h
    have hall : ∀ q ∈ roleLabels, noLtS q.2.toList = true := by decide
    exact hall (role, l) hm

/-- Helper: each rendered content part (with no image data map, so
images fall back to escaped placeholders) keeps the no-script-opener
shape. -/
theorem noLtS_renderPart (part : ContentPart) :
    noLtS (renderPart part []).toList = true := by
  cases part with
  | text t =>
    show noLtS (("<p class=\"text-part\">" ++ nlToBr (escapeHtml t) ++
      "</p>" : String)).toList = true
    rw [toList_append, toList_append, List.append_assoc]
    refine noLtS_append_last _ _ (by decide) ?_ (by decide)
    exact noLtS_append_head _ _ (noLtS_nlToBr_escape t) (by decide)
      (by decide)
  | code language t =>
    show noLtS (("<pre><code class=\"language-" ++ escapeHtml language ++
      "\">" ++ escapeHtml t ++ "</code></pre>" : String)).toList = true
    rw [toList_append, toList_append, toList_append, toList_append,
      List.append_assoc, List.append_assoc, List.append_assoc]
    refine noLtS_append_last _ _ (by decide) ?_ (by decide)
    refine noLtS_append_head _ _ (noLtS_escapeHtml language) ?_ ?_
    · refine noLtS_append_last _ _ (by decide) ?_ (by decide)
      exact noLtS_append_head _ _ (noLtS_escapeHtml t) (by decide)
        (by decide)
    · rw [head?_append_left _ _ (by decide)]
      decide
  | image assetId w h m =>
    show noLtS (("<p class=\"image-placeholder\">[Image: " ++
      escapeHtml assetId ++ "]</p>" : String)).toList = true
    rw [toList_append, toList_append, List.append_assoc]
    refine noLtS_append_last _ _ (by decide) ?_ (by decide)
    exact noLtS_append_head _ _ (noLtS_escapeHtml assetId) (by decide)
      (by decide)
  | unknown => rfl

/-- Helper: the joining loop of `String.intercalate` with a newline
separator keeps the no-script-opener shape. -/
theorem noLtS_intercalate_go :
    ∀ (as : List String) (acc : String),
      noLtS acc.toList = true →
      (∀ x ∈ as, noLtS x.toList = true) →
      noLtS (String.intercalate.go acc "\n" as).toList = true := by
  intro as
  induction as with
  | nil => intro acc hacc _; exact hacc
  | cons a as' ih =>
    intro acc hacc hall
    show noLtS (String.intercalate.go (acc ++ "\n" ++ a) "\n" as').toList =
      true
    apply ih
    · rw [toList_append, toList_append, List.append_assoc]
      apply noLtS_append_head _ _ hacc
      · rw [show ("\n" : String).toList ++ a.toList = '\n' :: a.toList
          from rfl]
        exact noLtS_cons _ _ (by decide) (hall a (List.mem_cons_self _ _))
      · rw [head?_append_left _ _ (by decide)]
        decide
    · intro x hx
      exact hall x (List.mem_cons_of_mem _ hx)

/-- Helper: a newline join of shape-preserving strings keeps the
shape. -/
theorem noLtS_intercalate (L : List String)
    (h : ∀ x ∈ L, noLtS x.toList = true) :
    noLtS (String.intercalate "\n" L).toList = true := by
  cases L with
  | nil => rfl
  | cons a as =>
    show noLtS (String.intercalate.go a "\n" as).toList = true
    exact noLtS_intercalate_go as a (h a (List.mem_cons_self _ _))
      fun x hx => h x (List.mem_cons_of_mem _ hx)

/-- Helper: a rendered message (with no image data map) keeps the
no-script-opener shape. -/
theorem noLtS_renderMessage (message : NormalizedMessage) :
    noLtS (renderMessage message []).toList = true := by
  unfold renderMessage
  simp only [toList_append, List.append_assoc]
  refine noLtS_append_last _ _ (by decide) ?_ (by decide)
  refine noLtS_append_last _ _ (by decide) ?_ (by decide)
  refine noLtS_append_head _ _ (noLtS_roleChars _) ?_ ?_
  · refine noLtS_append_last _ _ (by decide) ?_ (by decide)
    refine noLtS_append_last _ _ (by decide) ?_ (by decide)
    refine noLtS_append_head _ _ (noLtS_label _) ?_ ?_
    · refine noLtS_append_last _ _ (by decide) ?_ (by decide)
      refine noLtS_append_last _ _ (by decide) ?_ (by decide)
      refine noLtS_append_head _ _ ?_ ?_ ?_
      · apply noLtS_intercalate
        intro x hx
        obtain ⟨p, _, hp⟩ := List.mem_map.mp hx
        rw [← hp]
        exact noLtS_renderPart p
      · refine noLtS_append_last _ _ (by decide) (by decide) (by decide)
      · rw [head?_append_left _ _ (by decide)]
        decide
    · rw [head?_append_left _ _ (by decide)]
      decide
  · rw [head?_append_left _ _ (by decide)]
    decide

/-- Helper: drop a left block that contains no occurrence and admits no
straddling occurrence. -/
theorem countSub_append_drop (p a b : List Char)
    (H : ∀ s ∈ a.tails,
      (s.isEmpty || !(s.isPrefixOf p) || p.isPrefixOf s) = true)
    (hz : countSub p a = 0) :
    countSub p (a ++ b) = countSub p b := by
  rw [countSub_append_safe p a b H, hz, Nat.zero_add]

/-- Helper: peel a left block that contains exactly one occurrence and
admits no straddling occurrence. -/
theorem countSub_append_one (p a b : List Char)
    (H : ∀ s ∈ a.tails,
      (s.isEmpty || !(s.isPrefixOf p) || p.isPrefixOf s) = true)
    (h1 : countSub p a = 1) :
    countSub p (a ++ b) = 1 + countSub p b := by
  rw [countSub_append_safe p a b H, h1]

/-- Helper: in the rendered document, the script-tag substring occurs
exactly once in the static head (the highlight bootstrap script tag)
plus whatever the body carries; neither the title interpolations nor the
fixed fragments contribute any further occurrence, for every title. -/
theorem countSub_render_master (conv : NormalizedConversation)
    (imgs : List (String × String)) :
    countSub "<script>".toList
        (renderHtmlConversation conv imgs).toList =
      1 + countSub "<script>".toList
        (("</h1>\n" : String).toList ++
          ((String.intercalate "\n"
            (conv.messages.map (renderMessage · imgs))).toList ++
           ("\n  </main>\n</body>\n</html>" : String).toList)) := by
  rw [show ("<script>" : String).toList = '<' :: "script>".toList from rfl]
  unfold renderHtmlConversation htmlDocPre htmlDocMid htmlDocPost inlineCss
  simp only [toList_append, List.append_assoc]
  rw [countSub_append_drop _ _ _ (by decide) (by decide)]
  rw [countSub_append_drop _ _ _ (by decide) (by decide)]
  rw [countSub_append_drop _ _ _ (by decide) (by decide)]
  rw [countSub_skip_no_lt _ _ _ (fun x hx => (escapeHtml_mem _ x hx).1)]
  rw [countSub_append_drop _ _ _ (by decide) (by decide)]
  rw [countSub_append_drop _ _ _ (by decide) (by decide)]
  rw [countSub_append_drop _ _ _ (by decide) (by decide)]
  rw [countSub_append_drop _ _ _ (by decide) (by decide)]
  rw [countSub_append_one _ _ _ (by decide) (by decide)]
  rw [countSub_append_drop _ _ _ (by decide) (by decide)]
  rw [countSub_append_drop _ _ _ (by decide) (by decide)]
  rw [countSub_append_drop _ _ _ (by decide) (by decide)]
  rw [countSub_skip_no_lt _ _ _ (fun x hx => (escapeHtml_mem _ x hx).1)]

/-- C7: the HTML renderer escapes user-controlled content.  (1)
`escapeHtml` output never contains a raw less-than, greater-than,
double-quote or single-quote character — and the renderer routes the
title and every text, code and placeholder field through `escapeHtml`
by construction.  (2) The script-tag substring count of the rendered
document does not depend on the title, so a title containing a script
tag never appears unescaped.  (3) With no image data map (images render
as escaped placeholders), the rendered document contains exactly one
script-tag substring — the static highlight bootstrap tag of the head —
whatever title and message content the conversation holds. -/
theorem html_escaping_contract (conversation : NormalizedConversation)
    (imageDataUrls : List (String × String)) :
    (∀ s : String, ∀ c ∈ (escapeHtml s).toList,
       c ≠ '<' ∧ c ≠ '>' ∧ c ≠ '"' ∧ c ≠ '\'') ∧
    (∀ t : String,
       countSub "<script>".toList
         (renderHtmlConversation { conversation with title := t }
           imageDataUrls).toList =
       countSub "<script>".toList
         (renderHtmlConversation conversation imageDataUrls).toList) ∧
    countSub "<script>".toList
      (renderHtmlConversation conversation []).toList = 1 := by
  refine ⟨escapeHtml_mem, ?_, ?_⟩
  · intro t
    rw [countSub_render_master { conversation with title := t } imageDataUrls,
      countSub_render_master conversation imageDataUrls]
  · rw [countSub_render_master conversation []]
    have hz : countSub "<script>".toList
        (("</h1>\n" : String).toList ++
          ((String.intercalate "\n"
            (conversation.messages.map (renderMessage · []))).toList ++
           ("\n  </main>\n</body>\n</html>" : String).toList)) = 0 := by
      apply countSub_script_of_noLtS
      refine noLtS_append_last _ _ (by decide) ?_ (by decide)
      refine noLtS_append_head _ _ ?_ (by decide) (by decide)
      apply noLtS_intercalate
      intro x hx
      obtain ⟨msg, _, hm⟩ := List.mem_map.mp hx
      rw [← hm]
      exact noLtS_renderMessage msg
    rw [hz]

/-- C7 (witness): the contract at a concrete conversation, with a
concrete hostile title and a concrete escaped string. -/
theorem html_escaping_contract_witness :
    (∀ c ∈ (escapeHtml "<script>\"&x").toList,
       c ≠ '<' ∧ c ≠ '>' ∧ c ≠ '"' ∧ c ≠ '\'') ∧
    (countSub "<script>".toList
       (renderHtmlConversation { convFixture with title := "<script>" }
         []).toList =
     countSub "<script>".toList
       (renderHtmlConversation convFixture []).toList) ∧
    countSub "<script>".toList
      (renderHtmlConversation convFixture []).toList = 1 :=
  ⟨(html_escaping_contract convFixture []).1 "<script>\"&x",
   (html_escaping_contract convFixture []).2.1 "<script>",
   (html_escaping_contract convFixture []).2.2⟩

end CgptExporter
